import Mathlib

/-!
Verification development for the psj-hill-editor geometry pipeline.

The definitions below are a shallow embedding of the Python sources
`psjhill_exporter/util.py`, `psjhill_exporter/clipper.py`,
`psjhill_exporter/triangulator.py` and the mesh-flattening logic of
`psjhill_exporter/psjhill_exporter.py`.

Conventions of the embedding:
* Real-valued coordinates are modelled by `ℚ` wherever the source uses only
  field arithmetic and comparisons, and by `ℝ` in the curve-sampling module,
  whose source calls `math.sqrt`.
* The external polygon-clipping engine (the `pyclipper` pip package,
  together with the `scale_to_clipper` / `scale_from_clipper` round-trip
  that `clip_polygon` wraps around it) is modelled by an abstract function
  argument `E : ExecuteT`: it receives the subject polygon's 2-D points and
  the four corners of the cell rectangle and returns the rings of their
  even-odd intersection.
* Python `while` loops are modelled by fuel-indexed recursion returning
  `Except ClipErr _`; running out of fuel yields `ClipErr.outOfFuel`, so a
  loop that never terminates is the function that yields `outOfFuel` at
  every fuel.  Out-of-bounds list accesses of the source (`vertices[0]`,
  `polygons[0]`, `output1[idx]`) are modelled by the other error
  constructors.
-/

abbrev Color := String

/-- A 2-D point, as the pairs handled by `util.py`. -/
abbrev Pt := ℚ × ℚ

/-- A colored vertex `(x, y, colorHex)` as built in `recursively_iterate_layer`. -/
abbrev Vert := ℚ × ℚ × Color

/-- The bounding box consumed by `clip_polygon` (attributes `left`, `top`,
`width`, `height` of the inkex bounding box object). -/
structure BBoxQ where
  left : ℚ
  top : ℚ
  width : ℚ
  height : ℚ
deriving DecidableEq, Repr

/-- One cell record as appended by `clip_polygon` (`clipper.py`, lines 38-44):
the cell frame plus the rings (`"vertices"`) of the clipped solution. -/
structure CellQ where
  boundingBoxX : ℚ
  boundingBoxY : ℚ
  boundingBoxWidth : ℚ
  boundingBoxHeight : ℚ
  vertices : List (List Vert)
deriving DecidableEq, Repr

/-- Abstract interface of the external clipping engine: subject points and
the four corners `((x,y),(x2,y),(x2,y2),(x,y2))` of the clip rectangle in,
solution rings out (`pyclipper.Pyclipper.Execute` with `CT_INTERSECTION`,
`PFT_EVENODD`, `PFT_EVENODD`, wrapped in the scaling round-trip). -/
abbrev ExecuteT := List Pt → Pt × Pt × Pt × Pt → List (List Pt)

/-- Failure modes of the embedded clipper loops.  `outOfFuel` models a loop
iteration budget running out; the index errors model the Python
`IndexError`s that `vertices[0]` (`clipper.py` line 35), `polygons[0]`
(line 53) and `output1[idx]` (line 62) can raise. -/
inductive ClipErr where
  | outOfFuel
  | colorIndexErr
  | headIndexErr
  | mergeIndexErr
deriving DecidableEq, Repr

/-! ## PathMetrics (`util.py`) -/

/-- `util.ensure_right_pointing_vertices` (lines 133-137): keep the list if
`vertices[1][0] > vertices[0][0]`, otherwise return it reversed.  `none`
models the `IndexError` raised on lists with fewer than two points. -/
def ensure_right_pointing_vertices (vertices : List Pt) : Option (List Pt) :=
  match vertices with
  | v0 :: v1 :: _ => if v1.1 > v0.1 then some vertices else some vertices.reverse
  | _ => none

/-- `util.intersect_segments` (lines 155-180): determinant-based 2-D
segment intersection. -/
def intersect_segments (p1 p2 p3 p4 : Pt) : Option Pt :=
  let x1 := p1.1; let y1 := p1.2
  let x2 := p2.1; let y2 := p2.2
  let x3 := p3.1; let y3 := p3.2
  let x4 := p4.1; let y4 := p4.2
  let d := (y4 - y3) * (x2 - x1) - (x4 - x3) * (y2 - y1)
  if d = 0 then none
  else
    let yd := y1 - y3
    let xd := x1 - x3
    let ua := ((x4 - x3) * yd - (y4 - y3) * xd) / d
    if ua < 0 ∨ ua > 1 then none
    else
      let ub := ((x2 - x1) * yd - (y2 - y1) * xd) / d
      if ub < 0 ∨ ub > 1 then none
      else some (x1 + (x2 - x1) * ua, y1 + (y2 - y1) * ua)

/-! ## GridClipper (`clipper.py`) -/

/-- The color-tagging of one solution point (`clipper.py` line 35:
`point.append(vertices[0][2])`); fails when `vertices` is empty. -/
def addColorPt (vertices : List Vert) (p : Pt) : Option Vert :=
  match vertices with
  | [] => none
  | v :: _ => some (p.1, p.2, v.2.2)

/-- Color-tagging of one solution ring (inner `for point in object` loop). -/
def addColorRing (vertices : List Vert) : List Pt → Option (List Vert)
  | [] => some []
  | p :: t =>
    match addColorPt vertices p, addColorRing vertices t with
    | some v, some r => some (v :: r)
    | _, _ => none

/-- Color-tagging of the whole solution (`for object in solution` loop,
`clipper.py` lines 33-35). -/
def addColor (vertices : List Vert) : List (List Pt) → Option (List (List Vert))
  | [] => some []
  | ring :: t =>
    match addColorRing vertices ring, addColor vertices t with
    | some r, some rs => some (r :: rs)
    | _, _ => none

/-- The inner `while bounding_box_y < bounding_box.top + bounding_box.height`
loop of `clip_polygon` (`clipper.py` lines 15-45), with loop iterations
metered by fuel.  `x`/`x2` are the current column bounds, `bottom` is
`bounding_box.top + bounding_box.height`. -/
def clipInner (E : ExecuteT) (vertices : List Vert) (points : List Pt)
    (grid_size x x2 bottom : ℚ) (optimize : Bool) :
    ℕ → ℚ → Except ClipErr (List CellQ)
  | 0, _ => .error .outOfFuel
  | fuel + 1, y =>
    if y < bottom then
      let y2 := min (y + grid_size) bottom
      let solution := E points ((x, y), (x2, y), (x2, y2), (x, y2))
      match addColor vertices solution with
      | none => .error .colorIndexErr
      | some colored =>
        match clipInner E vertices points grid_size x x2 bottom optimize fuel (y + grid_size) with
        | .error e => .error e
        | .ok rest =>
          if 0 < solution.length ∨ optimize = false then
            .ok (⟨x, y, x2 - x, y2 - y, colored⟩ :: rest)
          else .ok rest
    else .ok []

/-- The outer `while bounding_box_x < bounding_box.left + bounding_box.width`
loop of `clip_polygon` (`clipper.py` lines 11-46).  `right` is
`bounding_box.left + bounding_box.width`; each column re-runs the inner loop
from `top` with the fixed inner fuel budget `innerFuel`. -/
def clipOuter (E : ExecuteT) (vertices : List Vert) (points : List Pt)
    (grid_size right top bottom : ℚ) (optimize : Bool) (innerFuel : ℕ) :
    ℕ → ℚ → Except ClipErr (List CellQ)
  | 0, _ => .error .outOfFuel
  | fuel + 1, x =>
    if x < right then
      let x2 := min (x + grid_size) right
      match clipInner E vertices points grid_size x x2 bottom optimize innerFuel top with
      | .error e => .error e
      | .ok chunk =>
        match clipOuter E vertices points grid_size right top bottom optimize innerFuel fuel (x + grid_size) with
        | .error e => .error e
        | .ok rest => .ok (chunk ++ rest)
    else .ok []

/-- `clipper.clip_polygon` (lines 4-47).  The 2-D projection
`points = [(v[0], v[1]) for v in vertices]` is taken here (line 8); the
`SCALING_FACTOR` round-trip and `pyclipper` calls live inside `E`. -/
def clip_polygon (E : ExecuteT) (fuel : ℕ) (vertices : List Vert)
    (bounding_box : BBoxQ) (grid_size : ℚ) (optimize : Bool) :
    Except ClipErr (List CellQ) :=
  let points := vertices.map (fun v => (v.1, v.2.1))
  clipOuter E vertices points grid_size
    (bounding_box.left + bounding_box.width) bounding_box.top
    (bounding_box.top + bounding_box.height) optimize fuel fuel bounding_box.left

/-- The `for idx, val in enumerate(output)` merge of `clip_polygons`
(`clipper.py` lines 60-62): ring lists of `output` are appended cell-wise
into `output1`.  `none` models the `IndexError` when `output` has more
cells than `output1`; cells of `output1` beyond `output` stay unchanged. -/
def mergeInto : List CellQ → List CellQ → Option (List CellQ)
  | acc, [] => some acc
  | [], _ :: _ => none
  | c1 :: t1, c :: t =>
    match mergeInto t1 t with
    | none => none
    | some r => some ({ c1 with vertices := c1.vertices ++ c.vertices } :: r)

/-- The `for vertices in polygons` loop of `clip_polygons` (lines 54-62)
after the first polygon was skipped: clip each remaining polygon with
`optimize=False` and merge its cells into the accumulator. -/
def clipMergeLoop (E : ExecuteT) (fuel : ℕ) (bounding_box : BBoxQ)
    (grid_size : ℚ) : List (List Vert) → List CellQ → Except ClipErr (List CellQ)
  | [], acc => .ok acc
  | p :: ps, acc =>
    match clip_polygon E fuel p bounding_box grid_size false with
    | .error e => .error e
    | .ok out =>
      match mergeInto acc out with
      | none => .error .mergeIndexErr
      | some acc2 => clipMergeLoop E fuel bounding_box grid_size ps acc2

/-- `clipper.clip_polygons` (lines 50-64): clip `polygons[0]` (the
`headIndexErr` models the `IndexError` on an empty list), merge the other
polygons' cells in, and drop cells whose merged ring list is empty. -/
def clip_polygons (E : ExecuteT) (fuel : ℕ) (polygons : List (List Vert))
    (bounding_box : BBoxQ) (grid_size : ℚ) : Except ClipErr (List CellQ) :=
  match polygons with
  | [] => .error .headIndexErr
  | p0 :: rest =>
    match clip_polygon E fuel p0 bounding_box grid_size false with
    | .error e => .error e
    | .ok output1 =>
      match clipMergeLoop E fuel bounding_box grid_size rest output1 with
      | .error e => .error e
      | .ok merged => .ok (merged.filter (fun c => decide (0 < c.vertices.length)))

/-! ## Spec-side formulation of ClipMerge (refinement target for C6) -/

/-- Clip every polygon of the list with `optimize=False` (spec Section 4.2:
"runs `ClipSingle` once per polygon with `optimize=false` over the identical
cell sequence"). -/
def clipAll (E : ExecuteT) (fuel : ℕ) (bounding_box : BBoxQ) (grid_size : ℚ) :
    List (List Vert) → Except ClipErr (List (List CellQ))
  | [] => .ok []
  | p :: ps =>
    match clip_polygon E fuel p bounding_box grid_size false with
    | .error e => .error e
    | .ok out =>
      match clipAll E fuel bounding_box grid_size ps with
      | .error e => .error e
      | .ok outs => .ok (out :: outs)

/-- The rings contributed at cell index `i` by every polygon's clip result,
in polygon order (spec: "for each cell index concatenates the rings produced
by every polygon at that index"). -/
def ringsAtIdx : List (List CellQ) → ℕ → List (List Vert)
  | [], _ => []
  | o :: t, i => ((o[i]?.map CellQ.vertices).getD []) ++ ringsAtIdx t i

/-- Walk the first polygon's cell sequence and attach to each cell the rings
concatenated over all polygons at that cell index. -/
def specCombine (outs : List (List CellQ)) : List CellQ → ℕ → List CellQ
  | [], _ => []
  | c :: t, i => { c with vertices := ringsAtIdx outs i } :: specCombine outs t (i + 1)

/-- Follows the spec's words for `ClipMerge` (spec Section 4.2): run
`ClipSingle` once per polygon with `optimize=false` over the identical cell
sequence, then for each cell index concatenate the rings produced by every
polygon at that index, and finally drop any cell whose concatenated ring
list is empty.  This is the refinement target that claim C6 compares with
the source's `clip_polygons`. -/
def clipMergeSpec (E : ExecuteT) (fuel : ℕ) (polygons : List (List Vert))
    (bounding_box : BBoxQ) (grid_size : ℚ) : Except ClipErr (List CellQ) :=
  match clipAll E fuel bounding_box grid_size polygons with
  | .error e => .error e
  | .ok [] => .error .headIndexErr
  | .ok (o0 :: outs) =>
    .ok ((specCombine (o0 :: outs) o0 0).filter (fun c => decide (0 < c.vertices.length)))

/-! ## Triangulator (`triangulator.py` and the flattening in
`psjhill_exporter.py`) -/

/-- Twice the signed area of a closed polygon (shoelace formula), used to
normalize ring orientation in the modelled ear-clipper. -/
def signedArea2 (pts : List Pt) : ℚ :=
  (pts.zip (pts.rotate 1)).foldl (fun s ab => s + (ab.1.1 * ab.2.2 - ab.2.1 * ab.1.2)) 0

/-- Cross product `(a - o) x (b - o)`. -/
def cross2 (o a b : Pt) : ℚ :=
  (a.1 - o.1) * (b.2 - o.2) - (a.2 - o.2) * (b.1 - o.1)

/-- Closed point-in-triangle test by sign agreement of the three edge cross
products. -/
def pointInTriangle (p a b c : Pt) : Bool :=
  let d1 := cross2 a b p
  let d2 := cross2 b c p
  let d3 := cross2 c a p
  (decide (0 ≤ d1) && decide (0 ≤ d2) && decide (0 ≤ d3)) ||
  (decide (d1 ≤ 0) && decide (d2 ≤ 0) && decide (d3 ≤ 0))

/-- Ear test at index `i` of a counterclockwise polygon: the corner is
convex and its triangle contains no other polygon vertex. -/
def isEar (poly : List Pt) (i : ℕ) : Bool :=
  let n := poly.length
  let a := (poly[(i + n - 1) % n]?).getD (0, 0)
  let b := (poly[i]?).getD (0, 0)
  let c := (poly[(i + 1) % n]?).getD (0, 0)
  decide (0 < cross2 a b c) &&
    (List.range n).all (fun j =>
      decide (j = (i + n - 1) % n) || decide (j = i) || decide (j = (i + 1) % n) ||
        !pointInTriangle ((poly[j]?).getD (0, 0)) a b c)

/-- One clipping pass of the modelled ear-clipper: repeatedly cut the first
ear found; give up (fail soft, contributing no further triangles) when no
ear exists. -/
def earclipAux : ℕ → List Pt → List (Pt × Pt × Pt)
  | 0, _ => []
  | fuel + 1, poly =>
    if poly.length < 3 then []
    else if poly.length = 3 then
      [((poly[0]?).getD (0, 0), (poly[1]?).getD (0, 0), (poly[2]?).getD (0, 0))]
    else
      match (List.range poly.length).find? (isEar poly) with
      | some i =>
        let n := poly.length
        (((poly[(i + n - 1) % n]?).getD (0, 0), (poly[i]?).getD (0, 0),
          (poly[(i + 1) % n]?).getD (0, 0))) :: earclipAux fuel (poly.eraseIdx i)
      | none => []

/-- Modelled from the spec: ear-clipping triangulation.  The vendored
`lib/tripy` module that `triangulator.py` imports is not under `src/`; this
definition follows the spec's words (Section 4.3 and the glossary:
"triangulation by iteratively removing a vertex whose triangle contains no
other polygon vertex", tolerating rings it cannot reduce by contributing
nothing further for them).  Rings are first oriented counterclockwise. -/
def earclip (pts : List Pt) : List (Pt × Pt × Pt) :=
  let poly := if signedArea2 pts < 0 then pts.reverse else pts
  earclipAux pts.length poly

/-- One triangulated ring as built by `triangulate_polygon`
(`triangulator.py` lines 6-15): the ring's colored vertices plus local
index triples recovered with `points.index(...)`. -/
structure TriObj where
  vertices : List Vert
  indicies : List (ℕ × ℕ × ℕ)
deriving DecidableEq, Repr

/-- One cell after `triangulate_polygon`: the `"vertices"` key is deleted
and replaced by the per-ring `"objects"` list (`triangulator.py` lines
16-17). -/
structure TriCellQ where
  boundingBoxX : ℚ
  boundingBoxY : ℚ
  boundingBoxWidth : ℚ
  boundingBoxHeight : ℚ
  objects : List TriObj
deriving DecidableEq, Repr

/-- `triangulator.triangulate_polygon` (lines 3-18): per cell, ear-clip each
ring independently and recover index triples by position lookup of the
triangle corners in the ring's point list. -/
def triangulate_polygon (polygon : List CellQ) : List TriCellQ :=
  polygon.map (fun clip =>
    { boundingBoxX := clip.boundingBoxX
      boundingBoxY := clip.boundingBoxY
      boundingBoxWidth := clip.boundingBoxWidth
      boundingBoxHeight := clip.boundingBoxHeight
      objects := clip.vertices.map (fun ring =>
        let points := ring.map (fun v => (v.1, v.2.1))
        let triangulated_points := earclip points
        { vertices := ring
          indicies := triangulated_points.map (fun t =>
            (points.indexOf t.1, points.indexOf t.2.1, points.indexOf t.2.2)) }) })

/-- One flattened mesh cell `{frame, vertices, indicies}` as produced by the
export routine after a cell's objects are merged. -/
structure MeshCellQ where
  boundingBoxX : ℚ
  boundingBoxY : ℚ
  boundingBoxWidth : ℚ
  boundingBoxHeight : ℚ
  vertices : List Vert
  indicies : List (ℕ × ℕ × ℕ)
deriving DecidableEq, Repr

/-- Concatenation of the per-ring vertex lists of a cell (both flatten
paths build `new_vertices` this way: `psjhill_exporter.py` lines 103-105
and 146-148). -/
def concatVertices : List TriObj → List Vert
  | [] => []
  | o :: t => o.vertices ++ concatVertices t

/-- Concatenation of the per-ring index lists of a cell WITHOUT re-basing,
exactly as the single-shape flatten builds `new_indicies`
(`psjhill_exporter.py` lines 106-108). -/
def concatIndices : List TriObj → List (ℕ × ℕ × ℕ)
  | [] => []
  | o :: t => o.indicies ++ concatIndices t

/-- Concatenation of the per-ring index lists with re-basing by the running
vertex count `start_indice`, exactly as the shape-group flatten builds
`new_indicies` (`psjhill_exporter.py` lines 150-158). -/
def rebasedIndices : List TriObj → ℕ → List (ℕ × ℕ × ℕ)
  | [], _ => []
  | o :: t, start_indice =>
    o.indicies.map (fun i => (i.1 + start_indice, i.2.1 + start_indice, i.2.2 + start_indice)) ++
      rebasedIndices t (start_indice + o.vertices.length)

/-- The single-shape flatten of `recursively_iterate_layer`
(`psjhill_exporter.py` lines 102-112): per cell, concatenate vertices and
concatenate the index triples as they are. -/
def flattenSingle (cells : List TriCellQ) : List MeshCellQ :=
  cells.map (fun clip =>
    { boundingBoxX := clip.boundingBoxX
      boundingBoxY := clip.boundingBoxY
      boundingBoxWidth := clip.boundingBoxWidth
      boundingBoxHeight := clip.boundingBoxHeight
      vertices := concatVertices clip.objects
      indicies := concatIndices clip.objects })

/-- The shape-group flatten of `recursively_iterate_layer`
(`psjhill_exporter.py` lines 145-162): per cell, concatenate vertices and
re-base each ring's index triples by the vertices already emitted. -/
def flattenGroup (cells : List TriCellQ) : List MeshCellQ :=
  cells.map (fun clip =>
    { boundingBoxX := clip.boundingBoxX
      boundingBoxY := clip.boundingBoxY
      boundingBoxWidth := clip.boundingBoxWidth
      boundingBoxHeight := clip.boundingBoxHeight
      vertices := concatVertices clip.objects
      indicies := rebasedIndices clip.objects 0 })

/-! ## CurveSampler (`util.py`, BY_DISTANCE sampling)

The source calls the vendored `lib/inkex/bezier.py` module, which is not
under `src/`; its three primitives are treated as follows:
`bezierpointatt` (exact evaluation of the cubic at a parameter) is modelled
from the spec by the cubic Bernstein formula, while `bezierlength` and
`beziertatlength` (arc length and arc-length-to-parameter inversion,
spec Section 4.1) are abstracted into a `BezOps` record, constrained in the
theorems by the mathematically true arc-length values they must produce. -/

noncomputable section

open scoped Classical

/-- A 2-D point with real coordinates, for the curve-sampling module. -/
abbrev PtR := ℝ × ℝ

/-- One superpath node `(previous handle, anchor, next handle)` as produced
by `to_superpath()` and consumed by `csp_sub_points_dst`. -/
abbrev SPNode := PtR × PtR × PtR

/-- A cubic Bezier segment `(start, control1, control2, end)`. -/
abbrev Bez := PtR × PtR × PtR × PtR

/-- `util.getbez` (lines 20-22): `(sp1[1], sp1[2], sp2[0], sp2[1])`. -/
def getbez (sp1 sp2 : SPNode) : Bez :=
  (sp1.2.1, sp1.2.2, sp2.1, sp2.2.1)

/-- Modelled from the spec: evaluation of a cubic Bezier segment at a
parameter (`bezier.bezierpointatt` of the vendored `lib/inkex/bezier.py`,
which is not under `src/`); the spec's "evaluating the curve there"
(Section 4.1) is the cubic Bernstein polynomial. -/
def bezierpointatt (bez : Bez) (t : ℝ) : PtR :=
  ((1 - t) ^ 3 * bez.1.1 + 3 * (1 - t) ^ 2 * t * bez.2.1.1 +
     3 * (1 - t) * t ^ 2 * bez.2.2.1.1 + t ^ 3 * bez.2.2.2.1,
   (1 - t) ^ 3 * bez.1.2 + 3 * (1 - t) ^ 2 * t * bez.2.1.2 +
     3 * (1 - t) * t ^ 2 * bez.2.2.1.2 + t ^ 3 * bez.2.2.2.2)

/-- `util.point_point_dst` (lines 140-141). -/
def point_point_dst (p1 p2 : PtR) : ℝ :=
  Real.sqrt ((p1.1 - p2.1) ^ 2 + (p1.2 - p2.2) ^ 2)

/-- Modelled from the spec: the arc-length primitives of the vendored
`lib/inkex/bezier.py` (not under `src/`): `length` is `bezierlength` (the
segment's arc length) and `tatlength` is `beziertatlength` (arc-length
fraction to parameter inversion, spec Section 4.1).  Theorems constrain a
record of this type by the arc-length values the spec forces. -/
structure BezOps where
  length : Bez → ℝ
  tatlength : Bez → ℝ → ℝ

/-- The inner `while dst_to_next_point < length_left` loop of
`csp_sub_points_dst` (`util.py` lines 59-67), metered by fuel.  State:
`(dst_to_next_point, length_left, point_length)`; returns the emitted
points together with the final `(dst_to_next_point, length_left)` pair
(line 69 then computes `dst_to_next_point -= length_left`, a value that is
dead because line 46 re-initializes it for the next segment). -/
def bezInnerLoop (ops : BezOps) (bez : Bez) (point_dst length : ℝ) :
    ℕ → ℝ → ℝ → ℝ → Option (List PtR × ℝ × ℝ)
  | 0, _, _, _ => none
  | fuel + 1, dst_to_next_point, length_left, point_length =>
    if dst_to_next_point < length_left then
      let length_left2 := length_left - dst_to_next_point
      let point_length2 := point_length + dst_to_next_point
      let time := ops.tatlength bez (point_length2 / length)
      match bezInnerLoop ops bez point_dst length fuel point_dst length_left2 point_length2 with
      | none => none
      | some (pts, fin) =>
        if 0.0001 < time ∧ time < 0.9999 then
          some (bezierpointatt bez time :: pts, fin)
        else some (pts, fin)
    else some ([], dst_to_next_point, length_left)

/-- The segment-walking `while i <= len(csp_sub) - 1` loop of
`csp_sub_points_dst` (`util.py` lines 43-73): `sp1` is `csp_sub[i-1]` and
the list argument holds `csp_sub[i], ...`; the final-endpoint append of
line 72-73 fires on the last segment. -/
def cspGo (ops : BezOps) (fuel : ℕ) (point_dst : ℝ) (add_last : Bool) :
    SPNode → List SPNode → Option (List PtR)
  | _, [] => some []
  | sp1, sp2 :: rest =>
    let bez := getbez sp1 sp2
    let length := ops.length bez
    let start_point := bezierpointatt bez 0
    let end_point := bezierpointatt bez 1
    let point_to_point_dst := point_point_dst start_point end_point
    let difference := |point_to_point_dst - length|
    let interior :=
      if difference > 0.01 then
        (bezInnerLoop ops bez point_dst length fuel point_dst length 0).map (fun r => r.1)
      else some []
    match interior with
    | none => none
    | some ipts =>
      match cspGo ops fuel point_dst add_last sp2 rest with
      | none => none
      | some tail =>
        some (start_point :: ipts ++
          (if add_last = true ∧ rest = [] then [end_point] else []) ++ tail)

/-- `util.csp_sub_points_dst` (lines 35-75): BY_DISTANCE sampling of a
chain of cubic Bezier segments.  `none` models inner-loop fuel running
out; the source loop runs `point_length` up by `point_dst` per iteration
while `length_left` drops, so any terminating source run is reproduced by a
sufficiently large fuel. -/
def csp_sub_points_dst (ops : BezOps) (fuel : ℕ) (csp_sub : List SPNode)
    (point_dst : ℝ) (add_last : Bool) : Option (List PtR) :=
  match csp_sub with
  | [] => some []
  | sp :: rest => cspGo ops fuel point_dst add_last sp rest

/-- The superpath of spec Scenario B: a single cubic from `(0,0)` to
`(10,0)` with controls `(3,0)` and `(7,0)`. -/
def scenarioSp0 : SPNode := ((0, 0), (0, 0), (3, 0))

/-- Second superpath node of spec Scenario B. -/
def scenarioSp1 : SPNode := ((7, 0), (10, 0), (10, 0))

/-- The segment chain of spec Scenario B. -/
def scenarioCsp : List SPNode := [scenarioSp0, scenarioSp1]

/-- Claim C1's Scenario B, stated as the claim states it, for every
arc-length model that is correct on the scenario's segment: the segment is
the straight line from `(0,0)` to `(10,0)` traversed with nonnegative
velocity, so its true arc length is exactly `10`, and any conformant
`BezOps` satisfies the premise. -/
def c1ScenarioAsClaimed : Prop :=
  ∀ ops : BezOps, ops.length (getbez scenarioSp0 scenarioSp1) = 10 →
    ∀ fuel : ℕ,
      csp_sub_points_dst ops fuel scenarioCsp 2 true =
        some [(0, 0), (2, 0), (4, 0), (6, 0), (8, 0), (10, 0)]

/-- A `BezOps` record used for concrete evaluations: its arc length equals
the true arc length `10` on Scenario B's straight segment (the only
segment at which theorems below consult it); the inversion component is
never consulted by these evaluations because the straight-segment shortcut
of `csp_sub_points_dst` skips the inner loop. -/
def scenarioOps : BezOps :=
  { length := fun _ => 10
    tatlength := fun _ l => l }

/-- The segment boundary points of a chain: each segment contributes its
start point, and the last segment also its end point when `add_last` is
set.  This is the BY_DISTANCE output for a chain all of whose segments
take the straight-segment shortcut. -/
def chainBoundaryPoints (add_last : Bool) : SPNode → List SPNode → List PtR
  | _, [] => []
  | sp1, sp2 :: rest =>
    bezierpointatt (getbez sp1 sp2) 0 ::
      ((if add_last = true ∧ rest = [] then [bezierpointatt (getbez sp1 sp2) 1] else []) ++
        chainBoundaryPoints add_last sp2 rest)

end

/-! ## Derived vocabulary used by the claims -/

/-- The determinant `d` computed by `intersect_segments` (`util.py` line 165). -/
def seg_d (p1 p2 p3 p4 : Pt) : ℚ :=
  (p4.2 - p3.2) * (p2.1 - p1.1) - (p4.1 - p3.1) * (p2.2 - p1.2)

/-- The interpolation parameter `ua` computed by `intersect_segments`
(`util.py` line 172). -/
def seg_ua (p1 p2 p3 p4 : Pt) : ℚ :=
  ((p4.1 - p3.1) * (p1.2 - p3.2) - (p4.2 - p3.2) * (p1.1 - p3.1)) / seg_d p1 p2 p3 p4

/-- The interpolation parameter `ub` computed by `intersect_segments`
(`util.py` line 176). -/
def seg_ub (p1 p2 p3 p4 : Pt) : ℚ :=
  ((p2.1 - p1.1) * (p1.2 - p3.2) - (p2.2 - p1.2) * (p1.1 - p3.1)) / seg_d p1 p2 p3 p4

/-- The frame `(boundingBoxX, boundingBoxY, boundingBoxWidth,
boundingBoxHeight)` of a cell record. -/
def cellFrame (c : CellQ) : ℚ × ℚ × ℚ × ℚ :=
  (c.boundingBoxX, c.boundingBoxY, c.boundingBoxWidth, c.boundingBoxHeight)

/-- Cell-wise ring concatenation of two clip outputs, the effect of one
pass of the `enumerate` merge on outputs of equal length. -/
def zipCombine (acc out : List CellQ) : List CellQ :=
  List.zipWith (fun c1 c => { c1 with vertices := c1.vertices ++ c.vertices }) acc out

/-- Membership of a point in the closed rectangle of a cell record. -/
def inCellClosed (c : CellQ) (p : Pt) : Prop :=
  c.boundingBoxX ≤ p.1 ∧ p.1 ≤ c.boundingBoxX + c.boundingBoxWidth ∧
    c.boundingBoxY ≤ p.2 ∧ p.2 ≤ c.boundingBoxY + c.boundingBoxHeight

/-- Membership of a point in the open interior of a cell record. -/
def inCellOpen (c : CellQ) (p : Pt) : Prop :=
  c.boundingBoxX < p.1 ∧ p.1 < c.boundingBoxX + c.boundingBoxWidth ∧
    c.boundingBoxY < p.2 ∧ p.2 < c.boundingBoxY + c.boundingBoxHeight

/-- Membership of a point in the closed bounding-box rectangle. -/
def inBBoxClosed (b : BBoxQ) (p : Pt) : Prop :=
  b.left ≤ p.1 ∧ p.1 ≤ b.left + b.width ∧ b.top ≤ p.2 ∧ p.2 ≤ b.top + b.height

/-- The clamped-tile shape of one emitted cell: it starts inside the box,
spans `grid_size` except when cut off by the box edge (the `min` of
`clipper.py` lines 12-13 and 16-17), and is never degenerate. -/
def cellClamped (b : BBoxQ) (grid_size : ℚ) (c : CellQ) : Prop :=
  b.left ≤ c.boundingBoxX ∧ b.top ≤ c.boundingBoxY ∧
    0 < c.boundingBoxWidth ∧ c.boundingBoxWidth ≤ grid_size ∧
    0 < c.boundingBoxHeight ∧ c.boundingBoxHeight ≤ grid_size ∧
    c.boundingBoxX + c.boundingBoxWidth =
      min (c.boundingBoxX + grid_size) (b.left + b.width) ∧
    c.boundingBoxY + c.boundingBoxHeight =
      min (c.boundingBoxY + grid_size) (b.top + b.height)

/-- Divergence of `clip_polygon` in the fuel model: every fuel budget is
exhausted, i.e. the Python loop never terminates. -/
def clipNeverCompletes (E : ExecuteT) (vertices : List Vert) (bounding_box : BBoxQ)
    (grid_size : ℚ) (optimize : Bool) : Prop :=
  ∀ fuel : ℕ, clip_polygon E fuel vertices bounding_box grid_size optimize = .error .outOfFuel

/-- The grid-coverage conclusion of claim C8 for one clip configuration:
the enumeration terminates, and any completed enumeration's cells cover the
bounding box exactly, overlap at most in edges, and are clamped tiles. -/
def c8Conclusion (E : ExecuteT) (vertices : List Vert) (bounding_box : BBoxQ)
    (grid_size : ℚ) : Prop :=
  (∃ fuel out, clip_polygon E fuel vertices bounding_box grid_size false = .ok out) ∧
  (∀ fuel out, clip_polygon E fuel vertices bounding_box grid_size false = .ok out →
    (∀ p : Pt, inBBoxClosed bounding_box p ↔ ∃ c ∈ out, inCellClosed c p) ∧
    out.Pairwise (fun c d => ∀ p : Pt, ¬(inCellOpen c p ∧ inCellOpen d p)) ∧
    (∀ c ∈ out, cellClamped bounding_box grid_size c))

/-! ## Concrete fixtures for evaluations and witnesses -/

/-- The trivial external clipping engine: every intersection is empty.  It
is the conformant engine for subjects lying entirely outside the clipped
bounding box, and is used to instantiate abstract-engine theorems. -/
def emptyExec : ExecuteT := fun _ _ => []

/-- A one-vertex polygon fixture. -/
def polyFix : List Vert := [(0, 0, "#000000ff")]

/-- A second polygon fixture with different geometry. -/
def polyFix2 : List Vert := [(7, 9, "#ff0000ff"), (8, 9, "#ff0000ff")]

/-- Bounding-box fixture `(left 0, top 0, width 3, height 2)`. -/
def bboxFix : BBoxQ := ⟨0, 0, 3, 2⟩

/-- A clipped cell holding two triangular rings, the failing input for the
single-shape flatten of claim C2. -/
def twoRingCell : CellQ :=
  { boundingBoxX := 0, boundingBoxY := 0, boundingBoxWidth := 4, boundingBoxHeight := 4
    vertices := [[(0, 0, "#000000ff"), (1, 0, "#000000ff"), (0, 1, "#000000ff")],
                 [(2, 0, "#000000ff"), (3, 0, "#000000ff"), (2, 1, "#000000ff")]] }

/-! ## Theorems -/

/-- C4 (counterexample): on the points `(0,0), (0,1), (5,5)` the first two
x-coordinates are equal, yet `ensure_right_pointing_vertices` returns the
reversed sequence, not the unchanged one required by the claim. -/
theorem c4_equal_x_counterexample :
    ensure_right_pointing_vertices [(0, 0), (0, 1), (5, 5)] =
        some [(5, 5), (0, 1), (0, 0)] ∧
      ensure_right_pointing_vertices [(0, 0), (0, 1), (5, 5)] ≠
        some [(0, 0), (0, 1), (5, 5)] := by
  decide

/-- C4 (amended): for every point list with at least two points,
`ensure_right_pointing_vertices` keeps the sequence exactly when the second
x-coordinate is strictly greater than the first, and reverses it otherwise;
in particular equal leading x-coordinates reverse the sequence. -/
theorem c4_orient_left_to_right (v0 v1 : Pt) (t : List Pt) :
    ensure_right_pointing_vertices (v0 :: v1 :: t) =
      some (if v0.1 < v1.1 then v0 :: v1 :: t else (v0 :: v1 :: t).reverse) := by
  simp only [ensure_right_pointing_vertices, gt_iff_lt]
  split <;> rfl

/-- C5: `intersect_segments` returns `none` exactly when the determinant is
zero or one of the interpolation parameters `ua`, `ub` lies outside
`[0, 1]`; otherwise it returns `a1 + ua * (a2 - a1)`; and the crossing
diagonals of spec Scenario C intersect at `(5, 5)`. -/
theorem c5_intersect_segments_spec :
    (∀ p1 p2 p3 p4 : Pt,
      (intersect_segments p1 p2 p3 p4 = none ↔
        seg_d p1 p2 p3 p4 = 0 ∨ seg_ua p1 p2 p3 p4 < 0 ∨ 1 < seg_ua p1 p2 p3 p4 ∨
          seg_ub p1 p2 p3 p4 < 0 ∨ 1 < seg_ub p1 p2 p3 p4) ∧
      (seg_d p1 p2 p3 p4 ≠ 0 → 0 ≤ seg_ua p1 p2 p3 p4 → seg_ua p1 p2 p3 p4 ≤ 1 →
        0 ≤ seg_ub p1 p2 p3 p4 → seg_ub p1 p2 p3 p4 ≤ 1 →
        intersect_segments p1 p2 p3 p4 =
          some (p1.1 + (p2.1 - p1.1) * seg_ua p1 p2 p3 p4,
                p1.2 + (p2.2 - p1.2) * seg_ua p1 p2 p3 p4))) ∧
    intersect_segments (0, 0) (10, 10) (0, 10) (10, 0) = some (5, 5) := by
  refine ⟨fun p1 p2 p3 p4 => ⟨?_, ?_⟩, by norm_num [intersect_segments]⟩
  · simp only [intersect_segments, seg_d, seg_ua, seg_ub]
    split_ifs with h1 h2 h3 <;> simp_all [not_or, not_lt, gt_iff_lt]
    all_goals tauto
  · intro hd hua1 hua2 hub1 hub2
    simp only [intersect_segments, seg_d, seg_ua, seg_ub] at *
    rw [if_neg hd, if_neg (by push_neg; exact ⟨hua1, hua2⟩), if_neg (by push_neg; exact ⟨hub1, hub2⟩)]

/-- C5 (witness): the hypotheses of the value clause of
`c5_intersect_segments_spec` hold at Scenario C's segments, and applying
the theorem there returns the midpoint. -/
theorem c5_intersect_segments_witness :
    (seg_d (0, 0) (10, 10) (0, 10) (10, 0) ≠ 0 ∧
      0 ≤ seg_ua (0, 0) (10, 10) (0, 10) (10, 0) ∧
      seg_ua (0, 0) (10, 10) (0, 10) (10, 0) ≤ 1 ∧
      0 ≤ seg_ub (0, 0) (10, 10) (0, 10) (10, 0) ∧
      seg_ub (0, 0) (10, 10) (0, 10) (10, 0) ≤ 1) ∧
    intersect_segments (0, 0) (10, 10) (0, 10) (10, 0) =
      some ((0 : ℚ) + (10 - 0) * seg_ua (0, 0) (10, 10) (0, 10) (10, 0),
            (0 : ℚ) + (10 - 0) * seg_ua (0, 0) (10, 10) (0, 10) (10, 0)) :=
  ⟨⟨by norm_num [seg_d], by norm_num [seg_ua, seg_d], by norm_num [seg_ua, seg_d],
      by norm_num [seg_ub, seg_d], by norm_num [seg_ub, seg_d]⟩,
    ((c5_intersect_segments_spec.1 (0, 0) (10, 10) (0, 10) (10, 0)).2
      (by norm_num [seg_d]) (by norm_num [seg_ua, seg_d]) (by norm_num [seg_ua, seg_d])
      (by norm_num [seg_ub, seg_d]) (by norm_num [seg_ub, seg_d]))⟩

/-- C2: on a cell holding two triangular rings, the single-shape flatten
emits the second ring's index triple unrebased (`(0,1,2)`, pointing back
into the first ring's vertices), while the shape-group flatten re-bases it
to `(3,4,5)` as the spec requires for every path. -/
theorem c2_single_flatten_skips_rebase :
    flattenSingle (triangulate_polygon [twoRingCell]) =
        [{ boundingBoxX := 0, boundingBoxY := 0, boundingBoxWidth := 4, boundingBoxHeight := 4
           vertices := [(0, 0, "#000000ff"), (1, 0, "#000000ff"), (0, 1, "#000000ff"),
                        (2, 0, "#000000ff"), (3, 0, "#000000ff"), (2, 1, "#000000ff")]
           indicies := [(0, 1, 2), (0, 1, 2)] }] ∧
      flattenGroup (triangulate_polygon [twoRingCell]) =
        [{ boundingBoxX := 0, boundingBoxY := 0, boundingBoxWidth := 4, boundingBoxHeight := 4
           vertices := [(0, 0, "#000000ff"), (1, 0, "#000000ff"), (0, 1, "#000000ff"),
                        (2, 0, "#000000ff"), (3, 0, "#000000ff"), (2, 1, "#000000ff")]
           indicies := [(0, 1, 2), (3, 4, 5)] }] := by
  norm_num [flattenSingle, flattenGroup, triangulate_polygon, twoRingCell, earclip,
    earclipAux, signedArea2, List.rotate, concatIndices, concatVertices, rebasedIndices,
    List.indexOf, List.findIdx, List.findIdx.go, cond_eq_if, beq_iff_eq]
  decide

/-- Helper: a segment whose chord length is within `0.01` of its reported
arc length takes the straight-segment shortcut of `csp_sub_points_dst`
(the `difference > 0.01` test of `util.py` line 58 fails), so the segment
contributes no interior points; a chain of such segments yields exactly
its boundary points. -/
theorem cspGo_straight_chain (ops : BezOps) (fuel : ℕ) (point_dst : ℝ)
    (add_last : Bool) :
    ∀ (rest : List SPNode) (sp1 : SPNode),
      List.Chain' (fun spa spb =>
        |point_point_dst (bezierpointatt (getbez spa spb) 0)
          (bezierpointatt (getbez spa spb) 1) - ops.length (getbez spa spb)| ≤ 0.01)
        (sp1 :: rest) →
      cspGo ops fuel point_dst add_last sp1 rest =
        some (chainBoundaryPoints add_last sp1 rest) := by
  intro rest
  induction rest with
  | nil => intro sp1 _; rfl
  | cons sp2 rest2 ih =>
    intro sp1 hchain
    have hgate := List.chain'_cons.mp hchain
    simp only [cspGo, gt_iff_lt]
    rw [if_neg (not_lt.mpr hgate.1)]
    rw [ih sp2 hgate.2]
    simp [chainBoundaryPoints]

/-- Helper: evaluation of the cubic of spec Scenario B at parameter `0`. -/
theorem scenarioBez_at0 : bezierpointatt (getbez scenarioSp0 scenarioSp1) 0 = (0, 0) := by
  norm_num [bezierpointatt, getbez, scenarioSp0, scenarioSp1, Prod.ext_iff]

/-- Helper: evaluation of the cubic of spec Scenario B at parameter `1`. -/
theorem scenarioBez_at1 : bezierpointatt (getbez scenarioSp0 scenarioSp1) 1 = (10, 0) := by
  norm_num [bezierpointatt, getbez, scenarioSp0, scenarioSp1, Prod.ext_iff]

/-- Helper: the chord of Scenario B's segment has length exactly `10`. -/
theorem scenario_chord :
    point_point_dst (bezierpointatt (getbez scenarioSp0 scenarioSp1) 0)
      (bezierpointatt (getbez scenarioSp0 scenarioSp1) 1) = 10 := by
  rw [scenarioBez_at0, scenarioBez_at1]
  unfold point_point_dst
  rw [show ((0 : ℝ) - 10) ^ 2 + ((0 : ℝ) - 0) ^ 2 = 10 ^ 2 by norm_num]
  exact Real.sqrt_sq (by norm_num)

/-- Helper: BY_DISTANCE sampling of Scenario B's straight segment emits
only the two endpoints, for every arc-length model that reports the true
length `10` on this segment. -/
theorem scenario_sample_eval (ops : BezOps) (fuel : ℕ)
    (hlen : ops.length (getbez scenarioSp0 scenarioSp1) = 10) :
    csp_sub_points_dst ops fuel scenarioCsp 2 true = some [(0, 0), (10, 0)] := by
  have h := cspGo_straight_chain ops fuel 2 true [scenarioSp1] scenarioSp0
    (List.chain'_cons.mpr ⟨by rw [scenario_chord, hlen]; norm_num, List.chain'_singleton _⟩)
  simp only [csp_sub_points_dst, scenarioCsp]
  rw [h]
  simp [chainBoundaryPoints, scenarioBez_at0, scenarioBez_at1]

/-- C1 (counterexample): Scenario B as the claim states it is false: with
any arc-length model that is exact on the scenario's straight segment
(`scenarioOps` is one), BY_DISTANCE sampling with spacing `2` and
`add_last=true` does not produce the six claimed points, because the
straight-segment shortcut suppresses all interior points. -/
theorem c1_scenario_counterexample : ¬c1ScenarioAsClaimed := by
  intro h
  have h2 := scenario_sample_eval scenarioOps 1 rfl
  rw [h scenarioOps rfl 1] at h2
  simp only [Option.some.injEq, List.cons.injEq] at h2
  exact absurd h2.2.2 (by simp)

/-- C1 (amended): BY_DISTANCE sampling emits each segment's start point
but emits the interior arc-length-spaced points only when the segment's
chord length differs from its arc length by more than `0.01`; hence for
every chain all of whose segments are within that straightness tolerance,
sampling returns exactly the chain's boundary points, the final endpoint
included exactly when `add_last` is set.  In particular Scenario B's
straight-line cubic yields only its two endpoints, not the six claimed
points. -/
theorem c1_by_distance_straight_chain (ops : BezOps) (fuel : ℕ) (sp1 : SPNode)
    (rest : List SPNode) (point_dst : ℝ) (add_last : Bool)
    (h : List.Chain' (fun spa spb =>
      |point_point_dst (bezierpointatt (getbez spa spb) 0)
        (bezierpointatt (getbez spa spb) 1) - ops.length (getbez spa spb)| ≤ 0.01)
      (sp1 :: rest)) :
    csp_sub_points_dst ops fuel (sp1 :: rest) point_dst add_last =
      some (chainBoundaryPoints add_last sp1 rest) := by
  simp only [csp_sub_points_dst]
  exact cspGo_straight_chain ops fuel point_dst add_last rest sp1 h

/-- C1 (witness): the straightness premise holds at Scenario B's segment
with the exact-arc-length model `scenarioOps`, and the amended theorem
there yields exactly the two endpoints. -/
theorem c1_by_distance_witness :
    List.Chain' (fun spa spb =>
      |point_point_dst (bezierpointatt (getbez spa spb) 0)
        (bezierpointatt (getbez spa spb) 1) -
        scenarioOps.length (getbez spa spb)| ≤ 0.01) [scenarioSp0, scenarioSp1] ∧
      csp_sub_points_dst scenarioOps 1 [scenarioSp0, scenarioSp1] 2 true =
        some [(0, 0), (10, 0)] := by
  have hprem : List.Chain' (fun spa spb =>
      |point_point_dst (bezierpointatt (getbez spa spb) 0)
        (bezierpointatt (getbez spa spb) 1) -
        scenarioOps.length (getbez spa spb)| ≤ 0.01) [scenarioSp0, scenarioSp1] :=
    List.chain'_cons.mpr ⟨by rw [scenario_chord]; norm_num [scenarioOps],
      List.chain'_singleton _⟩
  refine ⟨hprem, ?_⟩
  have h := c1_by_distance_straight_chain scenarioOps 1 scenarioSp0 [scenarioSp1] 2 true hprem
  rw [h]
  simp [chainBoundaryPoints, scenarioBez_at0, scenarioBez_at1]

/-- Helper: on a non-empty polygon the color-tagging of a ring always
succeeds (`vertices[0][2]` is in bounds). -/
theorem addColorRing_isSome (v : Vert) (vs : List Vert) (ring : List Pt) :
    ∃ r, addColorRing (v :: vs) ring = some r := by
  induction ring with
  | nil => exact ⟨[], rfl⟩
  | cons p t ih =>
    obtain ⟨r, hr⟩ := ih
    exact ⟨(p.1, p.2, v.2.2) :: r, by simp [addColorRing, addColorPt, hr]⟩

/-- Helper: on a non-empty polygon the color-tagging of a whole solution
always succeeds. -/
theorem addColor_isSome (v : Vert) (vs : List Vert) (sol : List (List Pt)) :
    ∃ r, addColor (v :: vs) sol = some r := by
  induction sol with
  | nil => exact ⟨[], rfl⟩
  | cons ring t ih =>
    obtain ⟨r, hr⟩ := ih
    obtain ⟨rr, hrr⟩ := addColorRing_isSome v vs ring
    exact ⟨rr :: r, by simp [addColor, hrr, hr]⟩

/-- Helper: with a non-positive grid size the inner row loop of
`clip_polygon` never advances past a row strictly above the box bottom, so
it exhausts every fuel budget. -/
theorem clipInner_diverges (E : ExecuteT) (v : Vert) (vs : List Vert) (points : List Pt)
    (grid_size x x2 bottom : ℚ) (optimize : Bool) (hg : grid_size ≤ 0) :
    ∀ fuel y, y < bottom →
      clipInner E (v :: vs) points grid_size x x2 bottom optimize fuel y =
        .error .outOfFuel := by
  intro fuel
  induction fuel with
  | zero => intro y _; rfl
  | succ n ih =>
    intro y hy
    have hrec := ih (y + grid_size) (by linarith)
    obtain ⟨r, hr⟩ :=
      addColor_isSome v vs (E points ((x, y), (x2, y), (x2, min (y + grid_size) bottom),
        (x, min (y + grid_size) bottom)))
    simp only [clipInner, if_pos hy, hr, hrec]

/-- Helper: with a non-positive grid size and a non-degenerate bounding
box, the outer column loop of `clip_polygon` exhausts every fuel budget,
because its very first inner loop already does. -/
theorem clipOuter_diverges (E : ExecuteT) (v : Vert) (vs : List Vert) (points : List Pt)
    (grid_size right top bottom : ℚ) (optimize : Bool) (innerFuel : ℕ)
    (hg : grid_size ≤ 0) (htb : top < bottom) :
    ∀ fuel x, x < right →
      clipOuter E (v :: vs) points grid_size right top bottom optimize innerFuel fuel x =
        .error .outOfFuel := by
  intro fuel
  cases fuel with
  | zero => intro x _; rfl
  | succ n =>
    intro x hx
    have hin := clipInner_diverges E v vs points grid_size x (min (x + grid_size) right)
      bottom optimize hg innerFuel top htb
    simp only [clipOuter, if_pos hx, hin]

/-- Helper: `clip_polygon` with `grid_size ≤ 0` on a non-empty polygon and
a bounding box of positive width and height completes at no fuel budget. -/
theorem clip_polygon_diverges_of_nonpos (E : ExecuteT) (v : Vert) (vs : List Vert)
    (bounding_box : BBoxQ) (grid_size : ℚ) (optimize : Bool)
    (hg : grid_size ≤ 0) (hw : 0 < bounding_box.width) (hh : 0 < bounding_box.height) :
    clipNeverCompletes E (v :: vs) bounding_box grid_size optimize := by
  intro fuel
  exact clipOuter_diverges E v vs _ grid_size _ _ _ optimize fuel hg (by linarith) fuel
    bounding_box.left (by linarith)

/-- C3 (counterexample): at the concrete call `clip_polygon` with
`grid_size = 0`, a one-vertex polygon and the 3-by-2 box, the code signals
no invalid-argument error and never returns: every fuel budget is
exhausted, i.e. the Python loop runs forever. -/
theorem c3_counterexample :
    clipNeverCompletes emptyExec polyFix bboxFix 0 true := by
  have h := clip_polygon_diverges_of_nonpos emptyExec (0, 0, "#000000ff") [] bboxFix 0 true
    (by norm_num) (by norm_num [bboxFix]) (by norm_num [bboxFix])
  exact h

/-- C3 (amended): `clip_polygon` performs no `grid_size ≤ 0` argument
check; for every non-empty polygon and every bounding box with positive
width and height, a call with `grid_size ≤ 0` fails to terminate instead
of signalling an error. -/
theorem c3_nonpositive_grid_loops_forever (E : ExecuteT) (v : Vert) (vs : List Vert)
    (bounding_box : BBoxQ) (grid_size : ℚ) (optimize : Bool)
    (hg : grid_size ≤ 0) (hw : 0 < bounding_box.width) (hh : 0 < bounding_box.height) :
    clipNeverCompletes E (v :: vs) bounding_box grid_size optimize :=
  clip_polygon_diverges_of_nonpos E v vs bounding_box grid_size optimize hg hw hh

/-- C3 (witness): the premises of the amended theorem hold at
`grid_size = -1` with the 3-by-2 box, and the amended theorem applies. -/
theorem c3_nonpositive_grid_witness :
    ((-1 : ℚ) ≤ 0 ∧ (0 : ℚ) < (BBoxQ.mk 0 0 3 2).width ∧
        (0 : ℚ) < (BBoxQ.mk 0 0 3 2).height) ∧
      clipNeverCompletes emptyExec [(7, 9, "#ff0000ff"), (8, 9, "#ff0000ff")]
        (BBoxQ.mk 0 0 3 2) (-1) false :=
  ⟨⟨by norm_num, by norm_num, by norm_num⟩,
    c3_nonpositive_grid_loops_forever emptyExec (7, 9, "#ff0000ff") [(8, 9, "#ff0000ff")]
      (BBoxQ.mk 0 0 3 2) (-1) false (by norm_num) (by norm_num) (by norm_num)⟩
/-- Helper: the inner loop fails only with `outOfFuel` or `colorIndexErr`. -/
theorem clipInner_error_cases (E : ExecuteT) (vertices : List Vert) (points : List Pt)
    (grid_size x x2 bottom : ℚ) (optimize : Bool) :
    ∀ fuel y e, clipInner E vertices points grid_size x x2 bottom optimize fuel y = .error e →
      e = .outOfFuel ∨ e = .colorIndexErr := by
  intro fuel
  induction fuel with
  | zero =>
    intro y e h
    simp only [clipInner, Except.error.injEq] at h
    exact Or.inl h.symm
  | succ n ih =>
    intro y e h
    simp only [clipInner] at h
    split at h
    · split at h
      · simp only [Except.error.injEq] at h
        exact Or.inr h.symm
      · split at h
        · rename_i e2 heq
          simp only [Except.error.injEq] at h
          exact h ▸ ih _ e2 heq
        · split at h <;> simp at h
    · simp at h

/-- Helper: the outer loop fails only with `outOfFuel` or `colorIndexErr`. -/
theorem clipOuter_error_cases (E : ExecuteT) (vertices : List Vert) (points : List Pt)
    (grid_size right top bottom : ℚ) (optimize : Bool) (innerFuel : ℕ) :
    ∀ fuel x e,
      clipOuter E vertices points grid_size right top bottom optimize innerFuel fuel x =
          .error e →
      e = .outOfFuel ∨ e = .colorIndexErr := by
  intro fuel
  induction fuel with
  | zero =>
    intro x e h
    simp only [clipOuter, Except.error.injEq] at h
    exact Or.inl h.symm
  | succ n ih =>
    intro x e h
    simp only [clipOuter] at h
    split at h
    · split at h
      · rename_i e2 heq
        simp only [Except.error.injEq] at h
        exact h ▸ clipInner_error_cases E vertices points grid_size x _ bottom optimize
          innerFuel top e2 heq
      · split at h
        · rename_i e2 heq
          simp only [Except.error.injEq] at h
          exact h ▸ ih _ e2 heq
        · simp at h
    · simp at h

/-- Helper: `clip_polygon` fails only with `outOfFuel` or `colorIndexErr`. -/
theorem clip_polygon_error_cases (E : ExecuteT) (fuel : ℕ) (vertices : List Vert)
    (bounding_box : BBoxQ) (grid_size : ℚ) (optimize : Bool) (e : ClipErr)
    (h : clip_polygon E fuel vertices bounding_box grid_size optimize = .error e) :
    e = .outOfFuel ∨ e = .colorIndexErr :=
  clipOuter_error_cases E vertices _ grid_size _ _ _ optimize fuel fuel _ e h

/-- Helper: the merge loop of `clip_polygons` fails only with `outOfFuel`,
`colorIndexErr` or `mergeIndexErr`. -/
theorem clipMergeLoop_error_cases (E : ExecuteT) (fuel : ℕ) (bounding_box : BBoxQ)
    (grid_size : ℚ) :
    ∀ ps acc e, clipMergeLoop E fuel bounding_box grid_size ps acc = .error e →
      e = .outOfFuel ∨ e = .colorIndexErr ∨ e = .mergeIndexErr := by
  intro ps
  induction ps with
  | nil =>
    intro acc e h
    simp [clipMergeLoop] at h
  | cons p t ih =>
    intro acc e h
    simp only [clipMergeLoop] at h
    split at h
    · rename_i e2 heq
      simp only [Except.error.injEq] at h
      rcases clip_polygon_error_cases E fuel p bounding_box grid_size false e2 heq with h2 | h2 <;>
        simp [h ▸ h2]
    · split at h
      · simp only [Except.error.injEq] at h
        simp [← h]
      · exact ih _ e h

/-- C10: `clip_polygons` requires a non-empty polygon list: on the empty
list the access `polygons[0]` is out of bounds (the call fails with the
head-access error instead of returning an empty cell list), while on every
non-empty list the head access is in bounds, so no run of `clip_polygons`
can fail with that error. -/
theorem c10_clip_polygons_head_access :
    (∀ (E : ExecuteT) (fuel : ℕ) (bounding_box : BBoxQ) (grid_size : ℚ),
      clip_polygons E fuel [] bounding_box grid_size = .error .headIndexErr) ∧
    (∀ (E : ExecuteT) (fuel : ℕ) (p : List Vert) (ps : List (List Vert))
        (bounding_box : BBoxQ) (grid_size : ℚ),
      clip_polygons E fuel (p :: ps) bounding_box grid_size ≠ .error .headIndexErr) := by
  constructor
  · intro E fuel bounding_box grid_size
    rfl
  · intro E fuel p ps bounding_box grid_size h
    simp only [clip_polygons] at h
    split at h
    · rename_i e2 heq
      simp only [Except.error.injEq] at h
      rcases clip_polygon_error_cases E fuel p bounding_box grid_size false e2 heq with h2 | h2 <;>
        simp [h2] at h
    · split at h
      · rename_i e2 heq
        simp only [Except.error.injEq] at h
        rcases clipMergeLoop_error_cases E fuel bounding_box grid_size ps _ e2 heq with h2 | h2 | h2 <;>
          simp [h2] at h
      · simp at h

/-- C10 (witness): concrete instances of both halves: the empty polygon
list fails with the head-access error, a one-polygon list never does. -/
theorem c10_clip_polygons_head_access_witness :
    clip_polygons emptyExec 5 [] bboxFix 2 = .error .headIndexErr ∧
      clip_polygons emptyExec 5 [polyFix] bboxFix 2 ≠ .error .headIndexErr :=
  ⟨c10_clip_polygons_head_access.1 emptyExec 5 bboxFix 2,
    c10_clip_polygons_head_access.2 emptyExec 5 polyFix [] bboxFix 2⟩
/-- Helper: with `optimize=False` and equal fuel, the inner loop emits
cell lists with identical frames regardless of engine and polygon. -/
theorem clipInner_frames_eq (E1 E2 : ExecuteT) (v1 v2 : List Vert) (pts1 pts2 : List Pt)
    (grid_size x x2 bottom : ℚ) :
    ∀ fuel y o1 o2,
      clipInner E1 v1 pts1 grid_size x x2 bottom false fuel y = .ok o1 →
      clipInner E2 v2 pts2 grid_size x x2 bottom false fuel y = .ok o2 →
      o1.map cellFrame = o2.map cellFrame := by
  intro fuel
  induction fuel with
  | zero => intro y o1 o2 h1 _; simp [clipInner] at h1
  | succ n ih =>
    intro y o1 o2 h1 h2
    simp only [clipInner] at h1 h2
    by_cases hy : y < bottom
    · rw [if_pos hy] at h1 h2
      split at h1
      · simp at h1
      · split at h1
        · simp at h1
        · rename_i c1 hc1 r1 hr1
          simp only [or_true, if_true, Except.ok.injEq] at h1
          split at h2
          · simp at h2
          · split at h2
            · simp at h2
            · rename_i c2 hc2 r2 hr2
              simp only [or_true, if_true, Except.ok.injEq] at h2
              subst h1
              subst h2
              simp only [List.map_cons, cellFrame]
              exact congrArg _ (ih (y + grid_size) r1 r2 hr1 hr2)
    · rw [if_neg hy] at h1 h2
      simp only [Except.ok.injEq] at h1 h2
      subst h1
      subst h2
      rfl
/-- Helper: with `optimize=False` and equal fuel, the outer loop emits
cell lists with identical frames regardless of engine and polygon. -/
theorem clipOuter_frames_eq (E1 E2 : ExecuteT) (v1 v2 : List Vert) (pts1 pts2 : List Pt)
    (grid_size right top bottom : ℚ) (innerFuel : ℕ) :
    ∀ fuel x o1 o2,
      clipOuter E1 v1 pts1 grid_size right top bottom false innerFuel fuel x = .ok o1 →
      clipOuter E2 v2 pts2 grid_size right top bottom false innerFuel fuel x = .ok o2 →
      o1.map cellFrame = o2.map cellFrame := by
  intro fuel
  induction fuel with
  | zero => intro x o1 o2 h1 _; simp [clipOuter] at h1
  | succ n ih =>
    intro x o1 o2 h1 h2
    simp only [clipOuter] at h1 h2
    by_cases hx : x < right
    · rw [if_pos hx] at h1 h2
      split at h1
      · simp at h1
      · rename_i c1 hc1
        split at h1
        · simp at h1
        · rename_i r1 hr1
          simp only [Except.ok.injEq] at h1
          split at h2
          · simp at h2
          · rename_i c2 hc2
            split at h2
            · simp at h2
            · rename_i r2 hr2
              simp only [Except.ok.injEq] at h2
              subst h1
              subst h2
              simp only [List.map_append]
              rw [clipInner_frames_eq E1 E2 v1 v2 pts1 pts2 grid_size x _ bottom innerFuel
                  top c1 c2 hc1 hc2,
                ih (x + grid_size) r1 r2 hr1 hr2]
    · rw [if_neg hx] at h1 h2
      simp only [Except.ok.injEq] at h1 h2
      subst h1
      subst h2
      rfl

/-- C9: with `optimize=false`, equal bounding box, equal positive grid
size and equal fuel, two `clip_polygon` runs over any two polygons return
equally many cells, in the same order, with pairwise identical frames: the
cell frame sequence never depends on the polygon. -/
theorem c9_cell_frames_polygon_independent (E : ExecuteT) (fuel : ℕ)
    (vs1 vs2 : List Vert) (bounding_box : BBoxQ) (grid_size : ℚ)
    (out1 out2 : List CellQ) (_hg : 0 < grid_size)
    (h1 : clip_polygon E fuel vs1 bounding_box grid_size false = .ok out1)
    (h2 : clip_polygon E fuel vs2 bounding_box grid_size false = .ok out2) :
    out1.length = out2.length ∧ out1.map cellFrame = out2.map cellFrame := by
  have hmap := clipOuter_frames_eq E E vs1 vs2 _ _ grid_size _ _ _ fuel fuel
    bounding_box.left out1 out2 h1 h2
  refine ⟨?_, hmap⟩
  have := congrArg List.length hmap
  simpa using this

/-- C9 (witness): two clip runs over different concrete polygons under the
3-by-2 box with grid size 2 both return the same two cells, and the
theorem applies to them. -/
theorem c9_cell_frames_witness :
    ((0 : ℚ) < 2 ∧
      clip_polygon emptyExec 5 polyFix bboxFix 2 false =
        .ok [⟨0, 0, 2, 2, []⟩, ⟨2, 0, 1, 2, []⟩] ∧
      clip_polygon emptyExec 5 polyFix2 bboxFix 2 false =
        .ok [⟨0, 0, 2, 2, []⟩, ⟨2, 0, 1, 2, []⟩]) ∧
    ([⟨0, 0, 2, 2, []⟩, ⟨2, 0, 1, 2, []⟩] : List CellQ).length =
        ([⟨0, 0, 2, 2, []⟩, ⟨2, 0, 1, 2, []⟩] : List CellQ).length ∧
      ([⟨0, 0, 2, 2, []⟩, ⟨2, 0, 1, 2, []⟩] : List CellQ).map cellFrame =
        ([⟨0, 0, 2, 2, []⟩, ⟨2, 0, 1, 2, []⟩] : List CellQ).map cellFrame := by
  have h1 : clip_polygon emptyExec 5 polyFix bboxFix 2 false =
      .ok [⟨0, 0, 2, 2, []⟩, ⟨2, 0, 1, 2, []⟩] := by
    norm_num [clip_polygon, clipOuter, clipInner, addColor, emptyExec, polyFix, bboxFix]
  have h2 : clip_polygon emptyExec 5 polyFix2 bboxFix 2 false =
      .ok [⟨0, 0, 2, 2, []⟩, ⟨2, 0, 1, 2, []⟩] := by
    norm_num [clip_polygon, clipOuter, clipInner, addColor, emptyExec, polyFix2, bboxFix]
  exact ⟨⟨by norm_num, h1, h2⟩,
    c9_cell_frames_polygon_independent emptyExec 5 polyFix polyFix2 bboxFix 2 _ _
      (by norm_num) h1 h2⟩
/-- Helper: color-tagging preserves the number of rings. -/
theorem addColor_length (vs : List Vert) :
    ∀ sol colored, addColor vs sol = some colored → colored.length = sol.length := by
  intro sol
  induction sol with
  | nil => intro colored h; simp only [addColor, Option.some.injEq] at h; simp [← h]
  | cons ring t ih =>
    intro colored h
    simp only [addColor] at h
    split at h
    · rename_i r rs hr hrs
      simp only [Option.some.injEq] at h
      simp [← h, ih rs hrs]
    · simp at h

/-- Helper: at equal fuel, the `optimize=True` inner loop returns exactly
the `optimize=False` inner loop's cells filtered to those with a non-empty
ring list. -/
theorem clipInner_optimize_filter (E : ExecuteT) (vs : List Vert) (pts : List Pt)
    (grid_size x x2 bottom : ℚ) :
    ∀ fuel y o1 o2,
      clipInner E vs pts grid_size x x2 bottom true fuel y = .ok o1 →
      clipInner E vs pts grid_size x x2 bottom false fuel y = .ok o2 →
      o1 = o2.filter (fun c => decide (0 < c.vertices.length)) := by
  intro fuel
  induction fuel with
  | zero => intro y o1 o2 h1 _; simp [clipInner] at h1
  | succ n ih =>
    intro y o1 o2 h1 h2
    simp only [clipInner] at h1 h2
    by_cases hy : y < bottom
    · rw [if_pos hy] at h1 h2
      split at h1
      · simp at h1
      · rename_i c1 hc1
        split at h2
        · rename_i hc2
          rw [hc1] at hc2
          simp at hc2
        · rename_i c2 hc2
          rw [hc1] at hc2
          replace hc2 : c1 = c2 := Option.some.inj hc2
          subst hc2
          split at h1
          · simp at h1
          · rename_i r1 hr1
            split at h2
            · simp at h2
            · rename_i r2 hr2
              have hrec := ih (y + grid_size) r1 r2 hr1 hr2
              simp only [Bool.true_eq_false, or_false, or_true, if_true,
                Except.ok.injEq] at h1 h2
              subst h2
              by_cases hlen :
                  0 < (E pts ((x, y), (x2, y), (x2, min (y + grid_size) bottom),
                    (x, min (y + grid_size) bottom))).length
              · rw [if_pos hlen, Except.ok.injEq] at h1
                subst h1
                have hclen : (0 : ℕ) < c1.length := by
                  rw [addColor_length vs _ c1 hc1]
                  exact hlen
                simp [List.filter_cons, hclen, hrec]
              · rw [if_neg hlen, Except.ok.injEq] at h1
                subst h1
                have hclen : ¬(0 : ℕ) < c1.length := by
                  rw [addColor_length vs _ c1 hc1]
                  exact hlen
                simp [List.filter_cons, hclen, hrec]
    · rw [if_neg hy] at h1 h2
      simp only [Except.ok.injEq] at h1 h2
      subst h1
      subst h2
      rfl

/-- Helper: at equal fuel, the `optimize=True` outer loop returns exactly
the `optimize=False` outer loop's cells filtered to those with a non-empty
ring list. -/
theorem clipOuter_optimize_filter (E : ExecuteT) (vs : List Vert) (pts : List Pt)
    (grid_size right top bottom : ℚ) (innerFuel : ℕ) :
    ∀ fuel x o1 o2,
      clipOuter E vs pts grid_size right top bottom true innerFuel fuel x = .ok o1 →
      clipOuter E vs pts grid_size right top bottom false innerFuel fuel x = .ok o2 →
      o1 = o2.filter (fun c => decide (0 < c.vertices.length)) := by
  intro fuel
  induction fuel with
  | zero => intro x o1 o2 h1 _; simp [clipOuter] at h1
  | succ n ih =>
    intro x o1 o2 h1 h2
    simp only [clipOuter] at h1 h2
    by_cases hx : x < right
    · rw [if_pos hx] at h1 h2
      split at h1
      · simp at h1
      · rename_i c1 hc1
        split at h1
        · simp at h1
        · rename_i r1 hr1
          split at h2
          · simp at h2
          · rename_i c2 hc2
            split at h2
            · simp at h2
            · rename_i r2 hr2
              simp only [Except.ok.injEq] at h1 h2
              subst h1
              subst h2
              rw [List.filter_append,
                ← clipInner_optimize_filter E vs pts grid_size x _ bottom innerFuel top
                  c1 c2 hc1 hc2,
                ← ih (x + grid_size) r1 r2 hr1 hr2]
    · rw [if_neg hx] at h1 h2
      simp only [Except.ok.injEq] at h1 h2
      subst h1
      subst h2
      rfl

/-- Helper: when the engine reports an empty intersection everywhere, every
cell the `optimize=False` inner loop emits has an empty ring list. -/
theorem clipInner_all_empty (E : ExecuteT) (vs : List Vert) (pts : List Pt)
    (grid_size x x2 bottom : ℚ) (hE : ∀ pts2 rect, E pts2 rect = []) :
    ∀ fuel y o, clipInner E vs pts grid_size x x2 bottom false fuel y = .ok o →
      ∀ c ∈ o, c.vertices = [] := by
  intro fuel
  induction fuel with
  | zero => intro y o h; simp [clipInner] at h
  | succ n ih =>
    intro y o h
    simp only [clipInner, hE, addColor] at h
    by_cases hy : y < bottom
    · rw [if_pos hy] at h
      split at h
      · simp at h
      · rename_i r hr
        simp only [List.length_nil, lt_self_iff_false, false_or, or_true, if_true,
          Except.ok.injEq] at h
        subst h
        intro c hc
        rcases List.mem_cons.mp hc with hc | hc
        · rw [hc]
        · exact ih (y + grid_size) r hr c hc
    · rw [if_neg hy] at h
      simp only [Except.ok.injEq] at h
      subst h
      intro c hc
      simp at hc

/-- Helper: when the engine reports an empty intersection everywhere, every
cell the `optimize=False` outer loop emits has an empty ring list. -/
theorem clipOuter_all_empty (E : ExecuteT) (vs : List Vert) (pts : List Pt)
    (grid_size right top bottom : ℚ) (innerFuel : ℕ)
    (hE : ∀ pts2 rect, E pts2 rect = []) :
    ∀ fuel x o,
      clipOuter E vs pts grid_size right top bottom false innerFuel fuel x = .ok o →
      ∀ c ∈ o, c.vertices = [] := by
  intro fuel
  induction fuel with
  | zero => intro x o h; simp [clipOuter] at h
  | succ n ih =>
    intro x o h
    simp only [clipOuter] at h
    by_cases hx : x < right
    · rw [if_pos hx] at h
      split at h
      · simp at h
      · rename_i c1 hc1
        split at h
        · simp at h
        · rename_i r1 hr1
          simp only [Except.ok.injEq] at h
          subst h
          intro c hc
          rcases List.mem_append.mp hc with hc | hc
          · exact clipInner_all_empty E vs pts grid_size x _ bottom hE innerFuel top
              c1 hc1 c hc
          · exact ih (x + grid_size) r1 hr1 c hc
    · rw [if_neg hx] at h
      simp only [Except.ok.injEq] at h
      subst h
      intro c hc
      simp at hc

/-- C7: at equal fuel, `clip_polygon` with `optimize=true` emits exactly
the cells of the `optimize=false` run whose intersection rings are
non-empty; and when the engine's intersection is empty everywhere (as for
a polygon entirely outside the bounding box), the `optimize=true` run
yields no cells while the `optimize=false` run yields its full cell grid
with every ring list empty. -/
theorem c7_optimize_filter_semantics (E : ExecuteT) (fuel : ℕ) (vs : List Vert)
    (bounding_box : BBoxQ) (grid_size : ℚ) (out outF : List CellQ)
    (ht : clip_polygon E fuel vs bounding_box grid_size true = .ok out)
    (hf : clip_polygon E fuel vs bounding_box grid_size false = .ok outF) :
    out = outF.filter (fun c => decide (0 < c.vertices.length)) ∧
    ((∀ pts rect, E pts rect = []) → out = [] ∧ ∀ c ∈ outF, c.vertices = []) := by
  have hfil := clipOuter_optimize_filter E vs _ grid_size _ _ _ fuel fuel
    bounding_box.left out outF ht hf
  refine ⟨hfil, fun hE => ?_⟩
  have hemp := clipOuter_all_empty E vs _ grid_size _ _ _ fuel hE fuel
    bounding_box.left outF hf
  refine ⟨?_, hemp⟩
  rw [hfil, List.filter_eq_nil_iff]
  intro c hc
  simp [hemp c hc]

/-- C7 (witness): with the everywhere-empty engine over the 3-by-2 box and
grid size 2, the `optimize=true` run returns no cells, the
`optimize=false` run returns both grid cells with empty ring lists, and
the theorem applies. -/
theorem c7_optimize_filter_witness :
    (clip_polygon emptyExec 5 polyFix bboxFix 2 true = .ok [] ∧
      clip_polygon emptyExec 5 polyFix bboxFix 2 false =
        .ok [⟨0, 0, 2, 2, []⟩, ⟨2, 0, 1, 2, []⟩]) ∧
    (([] : List CellQ) =
        ([⟨0, 0, 2, 2, []⟩, ⟨2, 0, 1, 2, []⟩] : List CellQ).filter
          (fun c => decide (0 < c.vertices.length)) ∧
      ((∀ pts rect, emptyExec pts rect = []) → ([] : List CellQ) = [] ∧
        ∀ c ∈ ([⟨0, 0, 2, 2, []⟩, ⟨2, 0, 1, 2, []⟩] : List CellQ), c.vertices = [])) := by
  have ht : clip_polygon emptyExec 5 polyFix bboxFix 2 true = .ok [] := by
    norm_num [clip_polygon, clipOuter, clipInner, addColor, emptyExec, polyFix, bboxFix]
  have hf : clip_polygon emptyExec 5 polyFix bboxFix 2 false =
      .ok [⟨0, 0, 2, 2, []⟩, ⟨2, 0, 1, 2, []⟩] := by
    norm_num [clip_polygon, clipOuter, clipInner, addColor, emptyExec, polyFix, bboxFix]
  exact ⟨⟨ht, hf⟩,
    c7_optimize_filter_semantics emptyExec 5 polyFix bboxFix 2 _ _ ht hf⟩
/-- Helper: on outputs of equal length the `enumerate` merge succeeds and
equals the cell-wise ring concatenation. -/
theorem mergeInto_eq_zipCombine :
    ∀ out acc : List CellQ, acc.length = out.length →
      mergeInto acc out = some (zipCombine acc out) := by
  intro out
  induction out with
  | nil =>
    intro acc hlen
    have : acc = [] := List.length_eq_zero.mp hlen
    subst this
    rfl
  | cons c t ih =>
    intro acc hlen
    cases acc with
    | nil => simp at hlen
    | cons c1 t1 =>
      simp only [List.length_cons, Nat.succ.injEq] at hlen
      simp [mergeInto, ih t1 hlen, zipCombine]

/-- Helper: the merge loop of `clip_polygons` equals clipping every
polygon in order and folding the cell-wise ring concatenation over the
accumulator, whenever every successful clip matches the accumulator's
length. -/
theorem clipMergeLoop_eq_foldl (E : ExecuteT) (fuel : ℕ) (bounding_box : BBoxQ)
    (grid_size : ℚ) :
    ∀ ps acc,
      (∀ p ∈ ps, ∀ out, clip_polygon E fuel p bounding_box grid_size false = .ok out →
        out.length = acc.length) →
      clipMergeLoop E fuel bounding_box grid_size ps acc =
        match clipAll E fuel bounding_box grid_size ps with
        | .error e => .error e
        | .ok outs => .ok (outs.foldl zipCombine acc) := by
  intro ps
  induction ps with
  | nil => intro acc _; simp [clipMergeLoop, clipAll]
  | cons p t ih =>
    intro acc hlen
    simp only [clipMergeLoop, clipAll]
    cases hc : clip_polygon E fuel p bounding_box grid_size false with
    | error e => rfl
    | ok out =>
      have hout : out.length = acc.length := hlen p (List.mem_cons_self p t) out hc
      simp only [mergeInto_eq_zipCombine out acc hout.symm]
      have hlen2 : ∀ q ∈ t, ∀ out2, clip_polygon E fuel q bounding_box grid_size false =
          .ok out2 → out2.length = (zipCombine acc out).length := by
        intro q hq out2 hq2
        rw [zipCombine, List.length_zipWith, hout, min_self]
        exact hlen q (List.mem_cons_of_mem p hq) out2 hq2
      rw [ih (zipCombine acc out) hlen2]
      cases hall : clipAll E fuel bounding_box grid_size t with
      | error e => rfl
      | ok outs => simp [List.foldl_cons]

/-- Helper: cell `i` of the folded merge result is cell `i` of the base
output with the rings of every later output at index `i` appended. -/
theorem foldl_zipCombine_get? :
    ∀ (outs : List (List CellQ)) (b : List CellQ),
      (∀ o ∈ outs, o.length = b.length) → ∀ i,
      (outs.foldl zipCombine b).get? i =
        (b.get? i).map (fun c => { c with vertices := c.vertices ++ ringsAtIdx outs i }) := by
  intro outs
  induction outs with
  | nil =>
    intro b _ i
    simp only [List.foldl_nil, ringsAtIdx]
    cases hb : b.get? i with
    | none => rfl
    | some c => cases c; simp
  | cons o t ih =>
    intro b hlen i
    have hob : o.length = b.length := hlen o (List.mem_cons_self o t)
    have hlen2 : ∀ o2 ∈ t, o2.length = (zipCombine b o).length := by
      intro o2 ho2
      rw [zipCombine, List.length_zipWith, ← hob, min_self, hob]
      exact hlen o2 (List.mem_cons_of_mem o ho2)
    rw [List.foldl_cons, ih (zipCombine b o) hlen2 i]
    rw [zipCombine, List.get?_zipWith']
    cases hb : b.get? i with
    | none => simp [ringsAtIdx]
    | some c =>
      cases ho : o.get? i with
      | none =>
        exfalso
        have h1 : b.length ≤ i := hob ▸ List.get?_eq_none.mp ho
        have h2 : i < b.length := (List.get?_eq_some.mp hb).1
        omega
      | some oc =>
        cases c
        simp [ringsAtIdx, ← List.get?_eq_getElem?, ho, List.append_assoc]

/-- Helper: cell `k` of `specCombine outs b i` is cell `k` of `b` with its
ring list replaced by the concatenation at index `i + k`. -/
theorem specCombine_get? (outs : List (List CellQ)) :
    ∀ (b : List CellQ) (i k : ℕ),
      (specCombine outs b i).get? k =
        (b.get? k).map (fun c => { c with vertices := ringsAtIdx outs (i + k) }) := by
  intro b
  induction b with
  | nil => intro i k; rfl
  | cons c t ih =>
    intro i k
    cases k with
    | zero => simp [specCombine]
    | succ k2 =>
      simp only [specCombine, List.get?_cons_succ]
      rw [ih (i + 1) k2]
      have : i + 1 + k2 = i + (k2 + 1) := by omega
      rw [this]

/-- Helper: every output produced by `clipAll` is the clip of one of the
polygons. -/
theorem clipAll_mem (E : ExecuteT) (fuel : ℕ) (bounding_box : BBoxQ) (grid_size : ℚ) :
    ∀ ps outs, clipAll E fuel bounding_box grid_size ps = .ok outs →
      ∀ o ∈ outs, ∃ q ∈ ps, clip_polygon E fuel q bounding_box grid_size false = .ok o := by
  intro ps
  induction ps with
  | nil =>
    intro outs h o ho
    simp only [clipAll, Except.ok.injEq] at h
    subst h
    simp at ho
  | cons p t ih =>
    intro outs h o ho
    simp only [clipAll] at h
    split at h
    · simp at h
    · rename_i out hc
      split at h
      · simp at h
      · rename_i outs2 hall
        simp only [Except.ok.injEq] at h
        subst h
        rcases List.mem_cons.mp ho with ho | ho
        · exact ⟨p, List.mem_cons_self p t, ho ▸ hc⟩
        · obtain ⟨q, hq, hqc⟩ := ih outs2 hall o ho
          exact ⟨q, List.mem_cons_of_mem p hq, hqc⟩

/-- C6: on every non-empty polygon list, the source's `clip_polygons`
coincides exactly (same successes, same errors) with the spec's
formulation of ClipMerge: clip each polygon with `optimize=false` over the
identical cell sequence, concatenate the rings produced by every polygon
at each cell index, and drop cells whose concatenated ring list is empty. -/
theorem c6_clip_polygons_refines_spec (E : ExecuteT) (fuel : ℕ) (p : List Vert)
    (ps : List (List Vert)) (bounding_box : BBoxQ) (grid_size : ℚ) :
    clip_polygons E fuel (p :: ps) bounding_box grid_size =
      clipMergeSpec E fuel (p :: ps) bounding_box grid_size := by
  simp only [clip_polygons, clipMergeSpec, clipAll]
  cases hc : clip_polygon E fuel p bounding_box grid_size false with
  | error e => rfl
  | ok o0 =>
    dsimp only
    have hlen : ∀ q ∈ ps, ∀ out,
        clip_polygon E fuel q bounding_box grid_size false = .ok out →
        out.length = o0.length := by
      intro q hq out hout
      have hmap := clipOuter_frames_eq E E q p (q.map (fun v => (v.1, v.2.1)))
        (p.map (fun v => (v.1, v.2.1))) grid_size
        (bounding_box.left + bounding_box.width) bounding_box.top
        (bounding_box.top + bounding_box.height) fuel fuel
        bounding_box.left out o0 hout hc
      have hlg := congrArg List.length hmap
      simpa using hlg
    rw [clipMergeLoop_eq_foldl E fuel bounding_box grid_size ps o0 hlen]
    cases hall : clipAll E fuel bounding_box grid_size ps with
    | error e => rfl
    | ok outs =>
      dsimp only
      have hlen2 : ∀ o ∈ outs, o.length = o0.length := by
        intro o ho
        obtain ⟨q, hq, hqc⟩ := clipAll_mem E fuel bounding_box grid_size ps outs hall o ho
        exact hlen q hq o hqc
      have heq : outs.foldl zipCombine o0 = specCombine (o0 :: outs) o0 0 := by
        apply List.ext_get?
        intro k
        rw [foldl_zipCombine_get? outs o0 hlen2 k, specCombine_get? (o0 :: outs) o0 0 k]
        cases hb : o0.get? k with
        | none => rfl
        | some c =>
          cases c
          simp [ringsAtIdx, ← List.get?_eq_getElem?, hb]
      rw [heq]
/-- Helper: shape of the cells emitted by one inner-loop run: all share the
column bounds, start at or below the loop entry row, stay strictly above
the box bottom, and have the clamped height. -/
theorem clipInner_shape (E : ExecuteT) (vs : List Vert) (pts : List Pt)
    (grid_size x x2 bottom : ℚ) (hg : 0 < grid_size) :
    ∀ fuel y o, clipInner E vs pts grid_size x x2 bottom false fuel y = .ok o →
      ∀ c ∈ o, c.boundingBoxX = x ∧ c.boundingBoxWidth = x2 - x ∧
        y ≤ c.boundingBoxY ∧ c.boundingBoxY < bottom ∧
        c.boundingBoxY + c.boundingBoxHeight =
          min (c.boundingBoxY + grid_size) bottom := by
  intro fuel
  induction fuel with
  | zero => intro y o h; simp [clipInner] at h
  | succ n ih =>
    intro y o h
    simp only [clipInner] at h
    by_cases hy : y < bottom
    · rw [if_pos hy] at h
      split at h
      · simp at h
      · rename_i c1 hc1
        split at h
        · simp at h
        · rename_i r hr
          simp only [Bool.true_eq_false, or_false, or_true, if_true,
            Except.ok.injEq] at h
          subst h
          intro c hc
          rcases List.mem_cons.mp hc with hc | hc
          · subst hc
            refine ⟨rfl, rfl, le_refl y, hy, ?_⟩
            dsimp only
            ring_nf
          · obtain ⟨h1, h2, h3, h4, h5⟩ := ih (y + grid_size) r hr c hc
            exact ⟨h1, h2, le_trans (by linarith) h3, h4, h5⟩
    · rw [if_neg hy] at h
      simp only [Except.ok.injEq] at h
      subst h
      intro c hc
      simp at hc

/-- Helper: one inner-loop run entered strictly above the box bottom
covers the whole row interval from its entry row to the bottom. -/
theorem clipInner_covers (E : ExecuteT) (vs : List Vert) (pts : List Pt)
    (grid_size x x2 bottom : ℚ) (_hg : 0 < grid_size) :
    ∀ fuel y o, clipInner E vs pts grid_size x x2 bottom false fuel y = .ok o →
      y < bottom → ∀ t, y ≤ t → t ≤ bottom →
      ∃ c ∈ o, c.boundingBoxY ≤ t ∧ t ≤ c.boundingBoxY + c.boundingBoxHeight := by
  intro fuel
  induction fuel with
  | zero => intro y o h; simp [clipInner] at h
  | succ n ih =>
    intro y o h hy t hyt htb
    simp only [clipInner, if_pos hy] at h
    split at h
    · simp at h
    · rename_i c1 hc1
      split at h
      · simp at h
      · rename_i r hr
        simp only [Bool.true_eq_false, or_false, or_true, if_true, Except.ok.injEq] at h
        subst h
        by_cases ht2 : t ≤ min (y + grid_size) bottom
        · refine ⟨_, List.mem_cons_self _ _, hyt, ?_⟩
          dsimp only
          linarith [ht2]
        · push_neg at ht2
          have hyg : y + grid_size < bottom := by
            rcases le_or_lt bottom (y + grid_size) with hcase | hcase
            · rw [min_eq_right hcase] at ht2
              linarith
            · exact hcase
          rw [min_eq_left (le_of_lt hyg)] at ht2
          obtain ⟨c, hcmem, hc1, hc2⟩ := ih (y + grid_size) r hr hyg t (le_of_lt ht2) htb
          exact ⟨c, List.mem_cons_of_mem _ hcmem, hc1, hc2⟩

/-- Helper: the cells of one inner-loop run are vertically ordered with at
most shared edges. -/
theorem clipInner_ordered (E : ExecuteT) (vs : List Vert) (pts : List Pt)
    (grid_size x x2 bottom : ℚ) (hg : 0 < grid_size) :
    ∀ fuel y o, clipInner E vs pts grid_size x x2 bottom false fuel y = .ok o →
      o.Pairwise (fun c d =>
        c.boundingBoxY + c.boundingBoxHeight ≤ d.boundingBoxY) := by
  intro fuel
  induction fuel with
  | zero => intro y o h; simp [clipInner] at h
  | succ n ih =>
    intro y o h
    simp only [clipInner] at h
    by_cases hy : y < bottom
    · rw [if_pos hy] at h
      split at h
      · simp at h
      · rename_i c1 hc1
        split at h
        · simp at h
        · rename_i r hr
          simp only [Bool.true_eq_false, or_false, or_true, if_true, Except.ok.injEq] at h
          subst h
          refine List.Pairwise.cons ?_ (ih (y + grid_size) r hr)
          intro d hd
          have hda := (clipInner_shape E vs pts grid_size x x2 bottom hg n (y + grid_size)
            r hr d hd).2.2.1
          dsimp only
          have hmin : min (y + grid_size) bottom ≤ y + grid_size := min_le_left _ _
          linarith
    · rw [if_neg hy] at h
      simp only [Except.ok.injEq] at h
      subst h
      exact List.Pairwise.nil

/-- Helper: on a non-empty polygon the inner loop terminates once the fuel
exceeds the number of rows remaining. -/
theorem clipInner_terminates (E : ExecuteT) (v : Vert) (vs : List Vert) (pts : List Pt)
    (grid_size x x2 bottom : ℚ) (_hg : 0 < grid_size) :
    ∀ k : ℕ, ∀ fuel y, bottom - y ≤ (k : ℚ) * grid_size → k < fuel →
      ∃ o, clipInner E (v :: vs) pts grid_size x x2 bottom false fuel y = .ok o := by
  intro k
  induction k with
  | zero =>
    intro fuel y hk hf
    cases fuel with
    | zero => omega
    | succ n =>
      have hy : ¬y < bottom := by
        simp only [Nat.cast_zero, zero_mul] at hk
        intro hy2
        linarith
      exact ⟨[], by simp [clipInner, if_neg hy]⟩
  | succ k2 ih =>
    intro fuel y hk hf
    cases fuel with
    | zero => omega
    | succ n =>
      by_cases hy : y < bottom
      · obtain ⟨colored, hcol⟩ := addColor_isSome v vs
          (E pts ((x, y), (x2, y), (x2, min (y + grid_size) bottom),
            (x, min (y + grid_size) bottom)))
        have hk2 : bottom - (y + grid_size) ≤ (k2 : ℚ) * grid_size := by
          push_cast at hk ⊢
          linarith
        obtain ⟨r, hr⟩ := ih n (y + grid_size) hk2 (by omega)
        refine ⟨⟨x, y, x2 - x, min (y + grid_size) bottom - y, colored⟩ :: r, ?_⟩
        simp [clipInner, if_pos hy, hcol, hr]
      · exact ⟨[], by simp [clipInner, if_neg hy]⟩

/-- Helper: shape of the cells emitted by one outer-loop run: every cell
starts at or right of the loop entry column, inside the box, and has
clamped width and height. -/
theorem clipOuter_shape (E : ExecuteT) (vs : List Vert) (pts : List Pt)
    (grid_size right top bottom : ℚ) (innerFuel : ℕ) (hg : 0 < grid_size) :
    ∀ fuel x o,
      clipOuter E vs pts grid_size right top bottom false innerFuel fuel x = .ok o →
      ∀ c ∈ o, x ≤ c.boundingBoxX ∧ c.boundingBoxX < right ∧
        c.boundingBoxX + c.boundingBoxWidth = min (c.boundingBoxX + grid_size) right ∧
        top ≤ c.boundingBoxY ∧ c.boundingBoxY < bottom ∧
        c.boundingBoxY + c.boundingBoxHeight =
          min (c.boundingBoxY + grid_size) bottom := by
  intro fuel
  induction fuel with
  | zero => intro x o h; simp [clipOuter] at h
  | succ n ih =>
    intro x o h
    simp only [clipOuter] at h
    by_cases hx : x < right
    · rw [if_pos hx] at h
      split at h
      · simp at h
      · rename_i c1 hc1
        split at h
        · simp at h
        · rename_i r hr
          simp only [Except.ok.injEq] at h
          subst h
          intro c hc
          rcases List.mem_append.mp hc with hc | hc
          · obtain ⟨h1, h2, h3, h4, h5⟩ :=
              clipInner_shape E vs pts grid_size x _ bottom hg innerFuel top c1 hc1 c hc
            refine ⟨le_of_eq h1.symm, h1 ▸ hx, ?_, h3, h4, h5⟩
            rw [h1, h2]
            ring_nf
          · obtain ⟨h1, h2, h3, h4, h5, h6⟩ := ih (x + grid_size) r hr c hc
            exact ⟨le_trans (by linarith) h1, h2, h3, h4, h5, h6⟩
    · rw [if_neg hx] at h
      simp only [Except.ok.injEq] at h
      subst h
      intro c hc
      simp at hc

/-- Helper: one outer-loop run entered strictly left of the box edge
covers the rectangle from its entry column to the box corner. -/
theorem clipOuter_covers (E : ExecuteT) (vs : List Vert) (pts : List Pt)
    (grid_size right top bottom : ℚ) (innerFuel : ℕ) (hg : 0 < grid_size) :
    ∀ fuel x o,
      clipOuter E vs pts grid_size right top bottom false innerFuel fuel x = .ok o →
      x < right → top < bottom →
      ∀ p : Pt, x ≤ p.1 → p.1 ≤ right → top ≤ p.2 → p.2 ≤ bottom →
      ∃ c ∈ o, inCellClosed c p := by
  intro fuel
  induction fuel with
  | zero => intro x o h; simp [clipOuter] at h
  | succ n ih =>
    intro x o h hx htb p hp1 hp2 hp3 hp4
    simp only [clipOuter, if_pos hx] at h
    split at h
    · simp at h
    · rename_i c1 hc1
      split at h
      · simp at h
      · rename_i r hr
        simp only [Except.ok.injEq] at h
        subst h
        by_cases hpx : p.1 ≤ min (x + grid_size) right
        · obtain ⟨c, hcmem, hcy1, hcy2⟩ := clipInner_covers E vs pts grid_size x _ bottom
            hg innerFuel top c1 hc1 htb p.2 hp3 hp4
          obtain ⟨h1, h2, _, _, _⟩ :=
            clipInner_shape E vs pts grid_size x _ bottom hg innerFuel top c1 hc1 c hcmem
          refine ⟨c, List.mem_append_left _ hcmem, ?_, ?_, hcy1, hcy2⟩
          · rw [h1]; exact hp1
          · rw [h1, h2]
            have : x + (min (x + grid_size) right - x) = min (x + grid_size) right := by ring
            rw [this]
            exact hpx
        · push_neg at hpx
          have hxg : x + grid_size < right := by
            rcases le_or_lt right (x + grid_size) with hcase | hcase
            · rw [min_eq_right hcase] at hpx
              linarith
            · exact hcase
          rw [min_eq_left (le_of_lt hxg)] at hpx
          obtain ⟨c, hcmem, hcin⟩ := ih (x + grid_size) r hr hxg htb p (le_of_lt hpx) hp2 hp3 hp4
          exact ⟨c, List.mem_append_right _ hcmem, hcin⟩

/-- Helper: the cells of one outer-loop run are ordered: any two distinct
cells are separated horizontally, or share the column and are separated
vertically, in both cases with at most a shared edge. -/
theorem clipOuter_ordered (E : ExecuteT) (vs : List Vert) (pts : List Pt)
    (grid_size right top bottom : ℚ) (innerFuel : ℕ) (hg : 0 < grid_size) :
    ∀ fuel x o,
      clipOuter E vs pts grid_size right top bottom false innerFuel fuel x = .ok o →
      o.Pairwise (fun c d =>
        c.boundingBoxX + c.boundingBoxWidth ≤ d.boundingBoxX ∨
          (c.boundingBoxX = d.boundingBoxX ∧
            c.boundingBoxY + c.boundingBoxHeight ≤ d.boundingBoxY)) := by
  intro fuel
  induction fuel with
  | zero => intro x o h; simp [clipOuter] at h
  | succ n ih =>
    intro x o h
    simp only [clipOuter] at h
    by_cases hx : x < right
    · rw [if_pos hx] at h
      split at h
      · simp at h
      · rename_i c1 hc1
        split at h
        · simp at h
        · rename_i r hr
          simp only [Except.ok.injEq] at h
          subst h
          rw [List.pairwise_append]
          refine ⟨?_, ih (x + grid_size) r hr, ?_⟩
          · have hord := clipInner_ordered E vs pts grid_size x _ bottom hg innerFuel top
              c1 hc1
            have hsh := clipInner_shape E vs pts grid_size x _ bottom hg innerFuel top
              c1 hc1
            refine List.Pairwise.imp_of_mem ?_ hord
            intro c d hcmem hdmem hyy
            exact Or.inr ⟨((hsh c hcmem).1).trans ((hsh d hdmem).1).symm, hyy⟩
          · intro c hcmem d hdmem
            obtain ⟨h1, h2, _, _, _⟩ :=
              clipInner_shape E vs pts grid_size x _ bottom hg innerFuel top c1 hc1 c hcmem
            have hd1 := (clipOuter_shape E vs pts grid_size right top bottom innerFuel hg
              n (x + grid_size) r hr d hdmem).1
            left
            rw [h1, h2]
            have : x + (min (x + grid_size) right - x) = min (x + grid_size) right := by ring
            rw [this]
            exact le_trans (min_le_left _ _) hd1
    · rw [if_neg hx] at h
      simp only [Except.ok.injEq] at h
      subst h
      exact List.Pairwise.nil

/-- Helper: on a non-empty polygon the outer loop terminates once the
outer fuel exceeds the number of columns and the inner fuel the number of
rows. -/
theorem clipOuter_terminates (E : ExecuteT) (v : Vert) (vs : List Vert) (pts : List Pt)
    (grid_size right top bottom : ℚ) (innerFuel : ℕ) (hg : 0 < grid_size)
    (ky : ℕ) (hky : bottom - top ≤ (ky : ℚ) * grid_size) (hkyf : ky < innerFuel) :
    ∀ kx : ℕ, ∀ fuel x, right - x ≤ (kx : ℚ) * grid_size → kx < fuel →
      ∃ o, clipOuter E (v :: vs) pts grid_size right top bottom false innerFuel fuel x =
        .ok o := by
  intro kx
  induction kx with
  | zero =>
    intro fuel x hk hf
    cases fuel with
    | zero => omega
    | succ n =>
      have hx : ¬x < right := by
        simp only [Nat.cast_zero, zero_mul] at hk
        intro hx2
        linarith
      exact ⟨[], by simp [clipOuter, if_neg hx]⟩
  | succ k2 ih =>
    intro fuel x hk hf
    cases fuel with
    | zero => omega
    | succ n =>
      by_cases hx : x < right
      · obtain ⟨chunk, hchunk⟩ := clipInner_terminates E v vs pts grid_size x
          (min (x + grid_size) right) bottom hg ky innerFuel top hky hkyf
        have hk2 : right - (x + grid_size) ≤ (k2 : ℚ) * grid_size := by
          push_cast at hk ⊢
          linarith
        obtain ⟨r, hr⟩ := ih n (x + grid_size) hk2 (by omega)
        exact ⟨chunk ++ r, by simp [clipOuter, if_pos hx, hchunk, hr]⟩
      · exact ⟨[], by simp [clipOuter, if_neg hx]⟩

/-- C8: for every non-empty polygon, bounding box with positive width and
height, and positive grid size, the `optimize=false` cell enumeration of
`clip_polygon` terminates, and its cells exactly cover the bounding box:
their closed rectangles' union is the box, no two overlap beyond a shared
edge, and every cell is a clamped tile of side at most `grid_size`. -/
theorem c8_grid_exactly_covers_bbox (E : ExecuteT) (v : Vert) (vs : List Vert)
    (bounding_box : BBoxQ) (grid_size : ℚ) (hg : 0 < grid_size)
    (hw : 0 < bounding_box.width) (hh : 0 < bounding_box.height) :
    c8Conclusion E (v :: vs) bounding_box grid_size := by
  have hright : bounding_box.left < bounding_box.left + bounding_box.width := by linarith
  have hbot : bounding_box.top < bounding_box.top + bounding_box.height := by linarith
  constructor
  · have hkx : bounding_box.width ≤
        ((Nat.ceil (bounding_box.width / grid_size) : ℕ) : ℚ) * grid_size := by
      have h1 : bounding_box.width / grid_size ≤
          ((Nat.ceil (bounding_box.width / grid_size) : ℕ) : ℚ) := Nat.le_ceil _
      exact (div_le_iff₀ hg).mp h1
    have hky : bounding_box.height ≤
        ((Nat.ceil (bounding_box.height / grid_size) : ℕ) : ℚ) * grid_size := by
      have h1 : bounding_box.height / grid_size ≤
          ((Nat.ceil (bounding_box.height / grid_size) : ℕ) : ℚ) := Nat.le_ceil _
      exact (div_le_iff₀ hg).mp h1
    obtain ⟨o, ho⟩ := clipOuter_terminates E v vs ((v :: vs).map (fun w => (w.1, w.2.1)))
      grid_size (bounding_box.left + bounding_box.width) bounding_box.top
      (bounding_box.top + bounding_box.height)
      (max (Nat.ceil (bounding_box.width / grid_size))
        (Nat.ceil (bounding_box.height / grid_size)) + 1) hg
      (Nat.ceil (bounding_box.height / grid_size))
      (by linarith)
      (by omega)
      (Nat.ceil (bounding_box.width / grid_size))
      (max (Nat.ceil (bounding_box.width / grid_size))
        (Nat.ceil (bounding_box.height / grid_size)) + 1)
      bounding_box.left
      (by linarith)
      (by omega)
    refine ⟨max (Nat.ceil (bounding_box.width / grid_size))
      (Nat.ceil (bounding_box.height / grid_size)) + 1, o, ?_⟩
    show clipOuter E (v :: vs) ((v :: vs).map (fun w => (w.1, w.2.1))) grid_size
        (bounding_box.left + bounding_box.width) bounding_box.top
        (bounding_box.top + bounding_box.height) false
        (max (Nat.ceil (bounding_box.width / grid_size))
          (Nat.ceil (bounding_box.height / grid_size)) + 1)
        (max (Nat.ceil (bounding_box.width / grid_size))
          (Nat.ceil (bounding_box.height / grid_size)) + 1)
        bounding_box.left = .ok o
    exact ho
  · intro fuel out hclip
    have hclip2 : clipOuter E (v :: vs) ((v :: vs).map (fun w => (w.1, w.2.1))) grid_size
        (bounding_box.left + bounding_box.width) bounding_box.top
        (bounding_box.top + bounding_box.height) false fuel fuel bounding_box.left =
        .ok out := hclip
    have hshape := clipOuter_shape E (v :: vs) _ grid_size _ _ _ fuel hg fuel
      bounding_box.left out hclip2
    refine ⟨?_, ?_, ?_⟩
    · intro p
      constructor
      · intro hp
        obtain ⟨hp1, hp2, hp3, hp4⟩ := hp
        exact clipOuter_covers E (v :: vs) _ grid_size _ _ _ fuel hg fuel
          bounding_box.left out hclip2 hright hbot p hp1 hp2 hp3 hp4
      · rintro ⟨c, hcmem, hcin⟩
        obtain ⟨h1, h2, h3, h4, h5, h6⟩ := hshape c hcmem
        obtain ⟨hc1, hc2, hc3, hc4⟩ := hcin
        refine ⟨le_trans h1 hc1, ?_, le_trans h4 hc3, ?_⟩
        · exact le_trans hc2 (h3 ▸ min_le_right _ _)
        · exact le_trans hc4 (h6 ▸ min_le_right _ _)
    · have hord := clipOuter_ordered E (v :: vs) _ grid_size _ _ _ fuel hg fuel
        bounding_box.left out hclip2
      refine hord.imp ?_
      intro c d hrel p hpcd
      obtain ⟨⟨hcx1, hcx2, hcy1, hcy2⟩, ⟨hdx1, hdx2, hdy1, hdy2⟩⟩ := hpcd
      rcases hrel with hsep | ⟨hxeq, hsep⟩
      · linarith
      · linarith
    · intro c hcmem
      obtain ⟨h1, h2, h3, h4, h5, h6⟩ := hshape c hcmem
      have hwpos : c.boundingBoxX < min (c.boundingBoxX + grid_size)
          (bounding_box.left + bounding_box.width) := lt_min (by linarith) h2
      have hhpos : c.boundingBoxY < min (c.boundingBoxY + grid_size)
          (bounding_box.top + bounding_box.height) := lt_min (by linarith) h5
      have hminw : min (c.boundingBoxX + grid_size)
          (bounding_box.left + bounding_box.width) ≤ c.boundingBoxX + grid_size :=
        min_le_left _ _
      have hminh : min (c.boundingBoxY + grid_size)
          (bounding_box.top + bounding_box.height) ≤ c.boundingBoxY + grid_size :=
        min_le_left _ _
      exact ⟨h1, h4, by linarith, by linarith, by linarith, by linarith, h3, h6⟩

/-- C8 (witness): the premises hold for a concrete two-vertex polygon over
the 3-by-2 box with grid size 2, and the coverage theorem applies there. -/
theorem c8_grid_coverage_witness :
    ((0 : ℚ) < 2 ∧ (0 : ℚ) < bboxFix.width ∧ (0 : ℚ) < bboxFix.height) ∧
      c8Conclusion emptyExec ((7, 9, "#ff0000ff") :: [(8, 9, "#ff0000ff")]) bboxFix 2 :=
  ⟨⟨by norm_num, by norm_num [bboxFix], by norm_num [bboxFix]⟩,
    c8_grid_exactly_covers_bbox emptyExec (7, 9, "#ff0000ff") [(8, 9, "#ff0000ff")]
      bboxFix 2 (by norm_num) (by norm_num [bboxFix]) (by norm_num [bboxFix])⟩
